import Mathlib

/-
Verification of the small_business bookkeeping core: a shallow embedding of
the storage registry (src/small_business/storage/registry.py), the
classification rule engine (src/small_business/classification/), the domain
models (src/small_business/models/) and the workflow glue
(src/small_business/workflows.py), together with proofs about the embedded
operations.

Modelling conventions:
- Python dicts become insertion-ordered association lists (`alookup` /
  `aupsert`); `d[k] = v` keeps the position of an existing key, which
  `aupsert` mirrors.
- JSON (de)serialization (pydantic model_dump_json / model_validate_json) is
  modelled as the identity: a JSONL file is a list of record values, a
  versioned entity file is the record value keyed by its path.
- `date.today()` and the uuid-based id generators become explicit parameters
  (`today`, fresh-id arguments) of the operations that call them.
- Python Decimal amounts become `Int` (amounts are only stored, compared and
  swapped in the verified claims, never divided).
- `str.lower` / `str.upper` are modelled character-wise (ASCII scope).
-/

namespace SB

/-- Lookup in an insertion-ordered association list (Python dict read). -/
def alookup {K V : Type} [DecidableEq K] : List (K × V) → K → Option V
  | [], _ => none
  | (k1, v1) :: rest, k => if k1 = k then some v1 else alookup rest k

/-- Update-or-append for an insertion-ordered association list: `d[k] = v`
keeps the position of an existing key and appends a new one. -/
def aupsert {K V : Type} [DecidableEq K] : List (K × V) → K → V → List (K × V)
  | [], k, v => [(k, v)]
  | (k1, v1) :: rest, k, v =>
    if k1 = k then (k1, v) :: rest else (k1, v1) :: aupsert rest k v

/-- Folding a list of records into a keyed dict, last record per key winning.
This is the shape of the JSONL load loops in
`StorageRegistry._load_clients` and `StorageRegistry._load_transactions`. -/
def keyFold {K V : Type} [DecidableEq K] (keyOf : V → K)
    (acc : List (K × V)) (lines : List V) : List (K × V) :=
  lines.foldl (fun m v => aupsert m (keyOf v) v) acc

/-- Calendar date (datetime.date): year, month, day. -/
structure DDate where
  year : Nat
  month : Nat
  day : Nat
deriving DecidableEq

/-- Strict comparison `a > b` on dates, mirroring Python date ordering. -/
def dateAfter (a b : DDate) : Bool :=
  Nat.blt b.year a.year ||
    (b.year == a.year &&
      (Nat.blt b.month a.month || (b.month == a.month && Nat.blt b.day a.day)))

/-- Last two decimal digits of a number as a string (Python `str(n)[-2:]`). -/
def lastTwoDigits (n : Nat) : String :=
  let s := toString n
  s.drop (s.length - 2)

/-- Financial year label, from small_business.models.utils.get_financial_year:
July-June years labelled "YYYY-YY". -/
def get_financial_year (d : DDate) : String :=
  if 7 ≤ d.month then toString d.year ++ "-" ++ lastTwoDigits (d.year + 1)
  else toString (d.year - 1) ++ "-" ++ lastTwoDigits d.year

/-- Python str.lower, character-wise (ASCII scope). -/
def strLower (s : String) : String := String.mk (s.data.map Char.toLower)

/-- Client record (small_business.models.client.Client). -/
structure Client where
  client_id : String
  name : String
  email : Option String := none
  phone : Option String := none
  contact_person : Option String := none
  abn : Option String := none
  street_address : Option String := none
  suburb : Option String := none
  state : Option String := none
  postcode : Option String := none
  formatted_address : Option String := none
  billing_street_address : Option String := none
  billing_suburb : Option String := none
  billing_state : Option String := none
  billing_postcode : Option String := none
  billing_formatted_address : Option String := none
  notes : String := ""
deriving DecidableEq

/-- Line item for quotes and invoices (small_business.models.line_item). -/
structure LineItem where
  description : String
  quantity : Int
  unit_price : Int
  gst_inclusive : Bool := true
deriving DecidableEq

/-- Quote status values (small_business.models.enums.QuoteStatus). -/
inductive QuoteStatus
  | draft
  | sent
  | accepted
  | rejected
  | expired
deriving DecidableEq

/-- String value of a QuoteStatus (the str-enum payload). -/
def QuoteStatus.value : QuoteStatus → String
  | .draft => "draft"
  | .sent => "sent"
  | .accepted => "accepted"
  | .rejected => "rejected"
  | .expired => "expired"

/-- Invoice status values (small_business.models.enums.InvoiceStatus). -/
inductive InvoiceStatus
  | draft
  | sent
  | paid
  | overdue
  | cancelled
deriving DecidableEq

/-- Quote record (small_business.models.quote.Quote). -/
structure Quote where
  quote_id : String
  client_id : String
  date_created : DDate
  date_sent : Option DDate := none
  date_accepted : Option DDate := none
  date_rejected : Option DDate := none
  date_valid_until : DDate
  line_items : List LineItem
  terms_and_conditions : String := ""
  version : Nat := 1
  notes : String := ""
deriving DecidableEq

/-- Derived quote status (Quote.status). `date.today()` is the explicit
`today` parameter. -/
def Quote.status (q : Quote) (today : DDate) : QuoteStatus :=
  if q.date_accepted.isSome then .accepted
  else if q.date_rejected.isSome then .rejected
  else if dateAfter today q.date_valid_until then .expired
  else if q.date_sent.isSome then .sent
  else .draft

/-- Invoice record (small_business.models.invoice.Invoice). -/
structure Invoice where
  invoice_id : String
  job_id : Option String := none
  client_id : String
  date_created : DDate
  date_issued : Option DDate := none
  date_due : DDate
  date_paid : Option DDate := none
  date_cancelled : Option DDate := none
  payment_amount : Option Int := none
  payment_reference : String := ""
  line_items : List LineItem
  version : Nat := 1
  notes : String := ""
deriving DecidableEq

/-- Derived invoice status (Invoice.status). `date.today()` is the explicit
`today` parameter. Python truthiness of an optional date is `isSome`. -/
def Invoice.status (inv : Invoice) (today : DDate) : InvoiceStatus :=
  if inv.date_cancelled.isSome then .cancelled
  else if inv.date_paid.isSome then .paid
  else if inv.date_issued.isSome then
    (if dateAfter today inv.date_due then .overdue else .sent)
  else .draft

/-- Job record (small_business.models.job.Job). -/
structure Job where
  job_id : String
  quote_id : Option String := none
  client_id : String
  date_accepted : DDate
  scheduled_date : Option DDate := none
  date_started : Option DDate := none
  date_completed : Option DDate := none
  date_invoiced : Option DDate := none
  actual_costs : List String := []
  notes : String := ""
  calendar_event_id : Option String := none
deriving DecidableEq

/-- Journal entry (small_business.models.transaction.JournalEntry). -/
structure JournalEntry where
  account_code : String
  debit : Int := 0
  credit : Int := 0
deriving DecidableEq

/-- Transaction record (small_business.models.transaction.Transaction).
The uuid-based transaction_id default and the date default become explicit
values supplied by callers. -/
structure Transaction where
  transaction_id : String
  date : DDate
  description : String
  entries : List JournalEntry
  receipt_path : Option String := none
  gst_inclusive : Bool := false
  notes : String := ""
deriving DecidableEq

/-- Classification rule (small_business.classification.models). -/
structure ClassificationRule where
  pattern : String
  account_code : String
  description : String
  gst_inclusive : Bool
  priority : Nat := 0
deriving DecidableEq

/-- Result of matching a rule (small_business.classification.models.RuleMatch).
The float confidence is modelled as a rational (the code only ever uses 1.0). -/
structure RuleMatch where
  rule : ClassificationRule
  confidence : ℚ
  matched_text : String
deriving DecidableEq

/-- Case-insensitive search of a literal pattern in a text
(re.compile(pattern, re.IGNORECASE).search(description) for the literal
patterns this system produces: merchant tokens without regex metacharacters,
for which re.search is exactly first-occurrence substring search). Returns
the matched slice of the original text (match.group(0)). -/
def ciSearch (p : List Char) : List Char → Option (List Char)
  | [] => if (p.map Char.toLower).isPrefixOf ([] : List Char) then some [] else none
  | c :: tl =>
    if (p.map Char.toLower).isPrefixOf ((c :: tl).map Char.toLower) then
      some ((c :: tl).take p.length)
    else ciSearch p tl

/-- Pattern matching of one rule, from classification.matcher.match_pattern:
case-insensitive search, fixed confidence 1.0, matched substring recorded. -/
def match_pattern (description : String) (rule : ClassificationRule) : Option RuleMatch :=
  match ciSearch rule.pattern.data description.data with
  | some m => some { rule := rule, confidence := 1, matched_text := String.mk m }
  | none => none

/-- Stable insertion step for descending-priority order: the inserted element
goes before the first element whose priority it reaches (equal priorities keep
the inserted, earlier element first). -/
def insertByPriority (m : RuleMatch) : List RuleMatch → List RuleMatch
  | [] => [m]
  | x :: xs =>
    if x.rule.priority ≤ m.rule.priority then m :: x :: xs
    else x :: insertByPriority m xs

/-- Stable sort by priority, highest first: the semantics of Python
`matches.sort(key=lambda m: m.rule.priority, reverse=True)` (list.sort is
stable; a stable sort for a total preorder is unique). -/
def sortByPriorityDesc : List RuleMatch → List RuleMatch
  | [] => []
  | x :: xs => insertByPriority x (sortByPriorityDesc xs)

/-- Best-match selection, from classification.matcher.find_best_match:
collect all matches, stable-sort by priority descending, take the first. -/
def find_best_match (description : String) (rules : List ClassificationRule) :
    Option RuleMatch :=
  let found := rules.filterMap (fun r => match_pattern description r)
  if found.isEmpty then none
  else (sortByPriorityDesc found).head?

/-- One step of the first-max scan: a later match replaces the current best
only when its priority is strictly higher. -/
def fmStep (acc : Option RuleMatch) (m : RuleMatch) : Option RuleMatch :=
  match acc with
  | none => some m
  | some b => if b.rule.priority < m.rule.priority then some m else some b

/-- Specification-side selector for C4: the first element of the list
achieving the maximum priority (highest priority, ties broken by original
list order). -/
def first_max_by_priority (ms : List RuleMatch) : Option RuleMatch :=
  ms.foldl fmStep none

/-- Combination of an earlier element with the first maximum of the later
elements: the later maximum wins only when strictly higher. -/
def fmCombine (a : RuleMatch) (o : Option RuleMatch) : Option RuleMatch :=
  match o with
  | none => some a
  | some h => if a.rule.priority < h.rule.priority then some h else some a

/-- Case-sensitive substring test on char lists (Python `needle in hay`). -/
def listContainsSub (p : List Char) : List Char → Bool
  | [] => p.isEmpty
  | c :: tl => p.isPrefixOf (c :: tl) || listContainsSub p tl

/-- Case-sensitive substring test on strings. -/
def strContains (hay needle : String) : Bool := listContainsSub needle.data hay.data

/-- Rule application, from classification.applicator.apply_classification:
entries whose account_code contains "UNCLASSIFIED" get the matched rule's
account code; the new Transaction is built from only id, date, description
and entries, so every other field takes its model default. -/
def apply_classification (t : Transaction) (m : RuleMatch) : Transaction :=
  let updated_entries := t.entries.map
    (fun entry =>
      if strContains entry.account_code ("UNCLASSIFIED") then
        { account_code := m.rule.account_code,
          debit := entry.debit, credit := entry.credit }
      else entry)
  { transaction_id := t.transaction_id, date := t.date,
    description := t.description, entries := updated_entries }

/-- ASCII uppercase letter test (the character class of the regex [A-Z]+). -/
def isAZ (c : Char) : Bool := 'A' ≤ c && c ≤ 'Z'

/-- Maximal runs of A-Z characters (re.findall of [A-Z]+), with an
accumulator for the run currently being read (kept reversed). -/
def azRunsAux : List Char → List Char → List (List Char)
  | cur, [] => if cur.isEmpty then [] else [cur.reverse]
  | cur, c :: tl =>
    if isAZ c then azRunsAux (c :: cur) tl
    else if cur.isEmpty then azRunsAux [] tl
    else cur.reverse :: azRunsAux [] tl

/-- Words of a description, from classification.learner: uppercase the
description, then extract the maximal runs of letters. -/
def az_words (description : String) : List (List Char) :=
  azRunsAux [] (description.data.map Char.toUpper)

/-- Python whitespace test for str.strip / str.split (ASCII scope). -/
def pyIsSpace (c : Char) : Bool :=
  c == ' ' || c == '\t' || c == '\n' || c == '\r' || c == '\x0b' || c == '\x0c'

/-- Leading non-whitespace run. -/
def takeNonSpace : List Char → List Char
  | [] => []
  | c :: tl => if pyIsSpace c then [] else c :: takeNonSpace tl

/-- First whitespace-separated token (description.strip().split() and then
index 0); none models the IndexError on an all-whitespace string. -/
def firstTokenAux : List Char → Option (List Char)
  | [] => none
  | c :: tl => if pyIsSpace c then firstTokenAux tl else some (c :: takeNonSpace tl)

/-- Stop words of classification.learner._extract_merchant_pattern. -/
def stop_words : List (List Char) :=
  [("PERTH").data, ("SYDNEY").data, ("MELBOURNE").data, ("BRISBANE").data,
   ("ADELAIDE").data, ("STORE").data, ("BRANCH").data, ("PTY").data, ("LTD").data]

/-- Known single-word merchants of _extract_merchant_pattern. -/
def known_single_merchants : List (List Char) :=
  [("COLES").data, ("WOOLWORTHS").data, ("ALDI").data, ("IGA").data]

/-- The word-selection loop of _extract_merchant_pattern, with
merchant_words as the accumulator; returning models `break`. -/
def merchantLoop : List (List Char) → List (List Char) → List (List Char)
  | acc, [] => acc
  | acc, w :: rest =>
    if w ∈ stop_words then acc
    else if acc.isEmpty then merchantLoop [w] rest
    else if acc.length = 1 then
      (if acc.headI ∈ known_single_merchants then acc else acc ++ [w])
    else merchantLoop acc rest

/-- Post-loop fallback of _extract_merchant_pattern: if the loop selected
nothing, use the first word. -/
def pickMerchantWords (words : List (List Char)) : List (List Char) :=
  let mw := merchantLoop [] words
  if mw.isEmpty then [words.headI] else mw

/-- Merchant-pattern extraction, from classification.learner
_extract_merchant_pattern; none models the IndexError of the fallback on an
all-whitespace description. -/
def extract_merchant_pattern (description : String) : Option String :=
  match az_words description with
  | [] => (firstTokenAux description.data).map String.mk
  | w :: rest =>
    some (String.mk (List.intercalate ([' ']) (pickMerchantWords (w :: rest))))

/-- Rule learning, from classification.learner.learn_rule. -/
def learn_rule (transaction : Transaction) (account_code : String)
    (description : String) (gst_inclusive : Bool) (priority : Nat) :
    Option ClassificationRule :=
  (extract_merchant_pattern transaction.description).map
    (fun p =>
      { pattern := p, account_code := account_code, description := description,
        gst_inclusive := gst_inclusive, priority := priority })

/-- Modelled from the words of claim C6 (for comparison with the code):
take the first token, and append the second token unless the first token is
a known single-word merchant or the second token is a stop word. -/
def claimed_pattern_c6 (description : String) : Option String :=
  match az_words description with
  | [] => none
  | w1 :: rest =>
    some (String.mk
      (match rest with
       | [] => w1
       | w2 :: _ =>
         if w1 ∈ known_single_merchants ∨ w2 ∈ stop_words then w1
         else w1 ++ ' ' :: w2))

/-- Modelled from the words of claim C5 (for comparison with the code):
cancelled, else paid, else overdue when today is after date_due and sent
otherwise -- the claim states the overdue/sent branch without requiring
date_issued to be set. -/
def claimed_status_c5 (inv : Invoice) (today : DDate) : InvoiceStatus :=
  if inv.date_cancelled.isSome then .cancelled
  else if inv.date_paid.isSome then .paid
  else if dateAfter today inv.date_due then .overdue
  else .sent

/-- Key of a versioned entity file: (financial-year directory, entity id,
version). The filename "{id}_v{version}.json" round-trips through
_parse_versioned_filename (rsplit on the last "_v"), so the (id, version)
pair is the faithful model of the filename. -/
abbrev VKey := String × String × Nat

/-- Key of a transaction: (transaction_id, date). -/
def txnKey (t : Transaction) : String × DDate := (t.transaction_id, t.date)

/-- Key of a client: case-folded client_id. -/
def clientKey (c : Client) : String := strLower c.client_id

/-- The on-disk data directory. JSONL files are lists of record lines;
versioned entity files are keyed by path. The settings / bank-formats /
chart-of-accounts singletons are not modelled (no verified claim reads
them, and loading them does not touch these collections). -/
structure Disk where
  clientsFile : List Client := []
  txnFiles : List (String × List Transaction) := []
  quoteFiles : List (VKey × Quote) := []
  invoiceFiles : List (VKey × Invoice) := []
  jobFiles : List (VKey × Job) := []
deriving DecidableEq

/-- In-memory state of storage.registry.StorageRegistry. -/
structure StorageRegistry where
  clients : List (String × Client) := []
  quotes : List ((String × Nat) × Quote) := []
  invoices : List ((String × Nat) × Invoice) := []
  jobs : List ((String × Nat) × Job) := []
  transactions : List ((String × DDate) × Transaction) := []
  latest_quotes : List (String × Nat) := []
  latest_invoices : List (String × Nat) := []
  latest_jobs : List (String × Nat) := []
deriving DecidableEq

/-- Latest-version index update of the versioned load loops: record the
version if the id is new or the version is larger. -/
def updateLatest (lat : List (String × Nat)) (eid : String) (ver : Nat) :
    List (String × Nat) :=
  match alookup lat eid with
  | none => aupsert lat eid ver
  | some v0 => if v0 < ver then aupsert lat eid ver else lat

/-- One versioned file being loaded: store under (id, version) and track the
latest version (the body of _load_quotes / _load_invoices / _load_jobs; the
glob order over files is unspecified in Python, list order here). -/
def vStep {α : Type} (acc : List ((String × Nat) × α) × List (String × Nat))
    (entry : VKey × α) : List ((String × Nat) × α) × List (String × Nat) :=
  (aupsert acc.1 (entry.1.2.1, entry.1.2.2) entry.2,
   updateLatest acc.2 entry.1.2.1 entry.1.2.2)

/-- Load all versioned files of one entity kind. -/
def loadVersioned {α : Type} (files : List (VKey × α)) :
    List ((String × Nat) × α) × List (String × Nat) :=
  files.foldl vStep ([], [])

/-- Load the clients JSONL, last line per case-folded id winning
(_load_clients before its compaction call). -/
def load_clients (lines : List Client) : List (String × Client) :=
  keyFold clientKey [] lines

/-- Rewrite of the clients file from the in-memory dict (_compact_clients);
an empty dict removes the file, i.e. yields no lines. -/
def compact_clients (m : List (String × Client)) : List Client :=
  m.map Prod.snd

/-- Dedup of one year's transactions JSONL, last line per (id, date)
winning. -/
def load_txn_year (lines : List Transaction) :
    List ((String × DDate) × Transaction) :=
  keyFold txnKey [] lines

/-- One financial-year transactions file being loaded: dedup the year,
merge into the global dict, and compact that year's file
(_load_transactions; an empty year removes the file). -/
def txnStep
    (acc : List ((String × DDate) × Transaction) × List (String × List Transaction))
    (file : String × List Transaction) :
    List ((String × DDate) × Transaction) × List (String × List Transaction) :=
  let ym := load_txn_year file.2
  (ym.foldl (fun m kv => aupsert m kv.1 kv.2) acc.1,
   acc.2 ++ (if ym.isEmpty then [] else [(file.1, ym.map Prod.snd)]))

/-- Load every financial year's transactions file, returning the in-memory
dict and the compacted files. -/
def load_transactions (files : List (String × List Transaction)) :
    List ((String × DDate) × Transaction) × List (String × List Transaction) :=
  files.foldl txnStep ([], [])

/-- Full load sequence (_load_all_data on a fresh registry): clients and
transactions are dedup-loaded and their files compacted; quotes, invoices
and jobs are scanned from their version files. -/
def loadAll (d : Disk) : StorageRegistry × Disk :=
  let cm := load_clients d.clientsFile
  let qs := loadVersioned d.quoteFiles
  let ivs := loadVersioned d.invoiceFiles
  let js := loadVersioned d.jobFiles
  let ts := load_transactions d.txnFiles
  ({ clients := cm,
     quotes := qs.1, latest_quotes := qs.2,
     invoices := ivs.1, latest_invoices := ivs.2,
     jobs := js.1, latest_jobs := js.2,
     transactions := ts.1 },
   { d with clientsFile := compact_clients cm, txnFiles := ts.2 })

/-- StorageRegistry.reload: clear every in-memory collection and re-run the
load sequence from disk (the prior registry state is discarded). -/
def StorageRegistry.reload (_s : StorageRegistry) (d : Disk) :
    StorageRegistry × Disk :=
  loadAll d

/-- StorageRegistry.save_client: upsert in memory by case-folded id keeping
the supplied case, and append one JSONL line to the clients file. -/
def save_client (s : StorageRegistry) (d : Disk) (c : Client) :
    StorageRegistry × Disk :=
  ({ s with clients := aupsert s.clients (clientKey c) c },
   { d with clientsFile := d.clientsFile ++ [c] })

/-- StorageRegistry.get_client: case-insensitive lookup; none models the
KeyError on a missing id. -/
def get_client (s : StorageRegistry) (client_id : String) : Option Client :=
  alookup s.clients (strLower client_id)

/-- StorageRegistry.get_all_clients. -/
def get_all_clients (s : StorageRegistry) : List Client :=
  s.clients.map Prod.snd

/-- Next version for a versioned entity (_get_next_quote_version and its
invoice/job twins): latest + 1, or 1 for a new id. -/
def next_version (lat : List (String × Nat)) (eid : String) : Nat :=
  match alookup lat eid with
  | some v => v + 1
  | none => 1

/-- StorageRegistry.save_quote: store under (id, next version), update the
latest index, write one new version file under the financial year of
date_created. -/
def save_quote (s : StorageRegistry) (d : Disk) (q : Quote) :
    StorageRegistry × Disk :=
  let ver := next_version s.latest_quotes q.quote_id
  ({ s with quotes := aupsert s.quotes (q.quote_id, ver) q,
            latest_quotes := aupsert s.latest_quotes q.quote_id ver },
   { d with quoteFiles :=
       aupsert d.quoteFiles (get_financial_year q.date_created, q.quote_id, ver) q })

/-- StorageRegistry.save_invoice: like save_quote; the file year comes from
date_issued when set, else date_created (`date_issued or date_created`). -/
def save_invoice (s : StorageRegistry) (d : Disk) (i : Invoice) :
    StorageRegistry × Disk :=
  let ver := next_version s.latest_invoices i.invoice_id
  let invoice_date := i.date_issued.getD i.date_created
  ({ s with invoices := aupsert s.invoices (i.invoice_id, ver) i,
            latest_invoices := aupsert s.latest_invoices i.invoice_id ver },
   { d with invoiceFiles :=
       aupsert d.invoiceFiles (get_financial_year invoice_date, i.invoice_id, ver) i })

/-- StorageRegistry.save_job: like save_quote; the file year comes from
date_accepted. -/
def save_job (s : StorageRegistry) (d : Disk) (j : Job) :
    StorageRegistry × Disk :=
  let ver := next_version s.latest_jobs j.job_id
  ({ s with jobs := aupsert s.jobs (j.job_id, ver) j,
            latest_jobs := aupsert s.latest_jobs j.job_id ver },
   { d with jobFiles :=
       aupsert d.jobFiles (get_financial_year j.date_accepted, j.job_id, ver) j })

/-- StorageRegistry.get_quote: requested version, or the latest when none is
given; none models FileNotFoundError. The date argument is unused by the
source lookup and kept for signature fidelity. -/
def get_quote (s : StorageRegistry) (quote_id : String) (_date : DDate)
    (version : Option Nat) : Option Quote :=
  match version with
  | some v => alookup s.quotes (quote_id, v)
  | none =>
    match alookup s.latest_quotes quote_id with
    | none => none
    | some v => alookup s.quotes (quote_id, v)

/-- StorageRegistry.get_invoice (see get_quote). -/
def get_invoice (s : StorageRegistry) (invoice_id : String) (_date : DDate)
    (version : Option Nat) : Option Invoice :=
  match version with
  | some v => alookup s.invoices (invoice_id, v)
  | none =>
    match alookup s.latest_invoices invoice_id with
    | none => none
    | some v => alookup s.invoices (invoice_id, v)

/-- StorageRegistry.get_job (see get_quote). -/
def get_job (s : StorageRegistry) (job_id : String) (_date : DDate)
    (version : Option Nat) : Option Job :=
  match version with
  | some v => alookup s.jobs (job_id, v)
  | none =>
    match alookup s.latest_jobs job_id with
    | none => none
    | some v => alookup s.jobs (job_id, v)

/-- Append one transaction line to its financial year's JSONL file
(open(txn_file, "a"); the directory and file are created if missing). -/
def appendTxnLine (d : Disk) (t : Transaction) : Disk :=
  let fy := get_financial_year t.date
  match alookup d.txnFiles fy with
  | some lines => { d with txnFiles := aupsert d.txnFiles fy (lines ++ [t]) }
  | none => { d with txnFiles := d.txnFiles ++ [(fy, [t])] }

/-- StorageRegistry.save_transaction: raise ValueError if the (id, date) key
already exists -- the raise precedes every mutation, so the error branch
returns the unchanged state -- else store in memory and append one line. -/
def save_transaction (s : StorageRegistry) (d : Disk) (t : Transaction) :
    Option String × StorageRegistry × Disk :=
  match alookup s.transactions (txnKey t) with
  | some _ => (some ("Transaction already exists: " ++ t.transaction_id), s, d)
  | none =>
    (none,
     { s with transactions := aupsert s.transactions (txnKey t) t },
     appendTxnLine d t)

/-- StorageRegistry.get_transaction; none models the KeyError. -/
def get_transaction (s : StorageRegistry) (transaction_id : String)
    (transaction_date : DDate) : Option Transaction :=
  alookup s.transactions (transaction_id, transaction_date)

/-- The reversed-entries list built inside void_transaction: each entry keeps
its account code with debit and credit swapped. -/
def reverse_entries (es : List JournalEntry) : List JournalEntry :=
  es.map
    (fun entry =>
      { account_code := entry.account_code,
        debit := entry.credit, credit := entry.debit })

/-- The reversing transaction constructed by void_transaction; the
uuid-generated id and date.today() of the Transaction constructor are the
explicit freshId / today parameters. -/
def make_void_txn (original : Transaction) (transaction_id : String)
    (today : DDate) (freshId : String) : Transaction :=
  { transaction_id := freshId, date := today,
    description :=
      "VOID: " ++ original.description ++ " (reverses " ++ transaction_id ++ ")",
    entries := reverse_entries original.entries }

/-- StorageRegistry.void_transaction: build a reversing transaction with
debit and credit swapped per entry and save it as a new transaction. -/
def void_transaction (s : StorageRegistry) (d : Disk) (transaction_id : String)
    (transaction_date : DDate) (today : DDate) (freshId : String) :
    Option String × StorageRegistry × Disk × Option Transaction :=
  match get_transaction s transaction_id transaction_date with
  | none => (some ("Transaction not found: " ++ transaction_id), s, d, none)
  | some original =>
    match save_transaction s d (make_void_txn original transaction_id today freshId) with
    | (some err, _, _) => (some err, s, d, none)
    | (none, s2, d2) =>
      (none, s2, d2, some (make_void_txn original transaction_id today freshId))

/-- StorageRegistry.get_all_quotes with latest_only=True: the latest version
of every quote, in latest-index order. The source indexes the dict directly;
in a loaded registry every latest entry is present, so the filterMap drops
nothing. -/
def get_all_quotes_latest (s : StorageRegistry) : List Quote :=
  s.latest_quotes.filterMap (fun kv => alookup s.quotes (kv.1, kv.2))

/-- workflows._get_latest_quote: the first latest-version quote whose
content quote_id equals the requested id; none models FileNotFoundError. -/
def get_latest_quote_by_id (s : StorageRegistry) (quote_id : String) : Option Quote :=
  ((get_all_quotes_latest s).filter (fun q => q.quote_id == quote_id)).head?

/-- workflows.accept_quote_to_job: construct a fresh registry from the data
directory, require the latest quote's derived status to be exactly SENT
(raising a ValueError naming the actual status otherwise), then save an
accepted quote version and a new linked job. date.today() and the generated
job id are the explicit today / freshJobId parameters. -/
def accept_quote_to_job (quote_id : String) (d : Disk)
    (scheduled_date : Option DDate) (today : DDate) (freshJobId : String) :
    Option String × Disk × Option Job :=
  let ld := loadAll d
  let storage := ld.1
  let d1 := ld.2
  match get_latest_quote_by_id storage quote_id with
  | none => (some ("Quote not found: " ++ quote_id), d1, none)
  | some quote =>
    if quote.status today = QuoteStatus.sent then
      let accepted_quote := { quote with date_accepted := some today }
      let r1 := save_quote storage d1 accepted_quote
      let job : Job :=
        { job_id := freshJobId, client_id := quote.client_id,
          quote_id := some quote.quote_id, date_accepted := today,
          scheduled_date := scheduled_date }
      let r2 := save_job r1.1 r1.2 job
      (none, r2.2, some job)
    else
      (some ("Quote " ++ quote_id ++ " cannot be accepted: status is " ++
             (quote.status today).value ++ " (must be sent)"), d1, none)

/-- The merchant-word formula of the amended claim C6: the first token alone
when it is a stop word; otherwise the first token, with the second appended
unless the first is a known single-word merchant or the second is a stop
word. -/
def c6_spec_pattern (w1 : List Char) (rest : List (List Char)) : List Char :=
  if w1 ∈ stop_words then w1
  else
    match rest with
    | [] => w1
    | w2 :: _ =>
      if w1 ∈ known_single_merchants then w1
      else if w2 ∈ stop_words then w1
      else w1 ++ ' ' :: w2

/-- Well-formedness of the transaction files of a data directory as this
program writes them: every line sits in the file of its own financial year,
and financial-year directories are distinct paths. -/
def TxnFilesWF (files : List (String × List Transaction)) : Prop :=
  (∀ p ∈ files, ∀ t ∈ p.2, get_financial_year t.date = p.1) ∧
  (files.map Prod.fst).Nodup

/-- Sample line item. -/
def li0 : LineItem := { description := "work", quantity := 1, unit_price := 100 }

/-- Sample date used as "today" in witnesses. -/
def today5 : DDate := ⟨2025, 1, 1⟩

/-- Sample invoice: never issued, never paid or cancelled, due date in the
past relative to today5. -/
def inv5d : Invoice :=
  { invoice_id := "INV-1", client_id := "Acme", date_created := ⟨2024, 1, 1⟩,
    date_due := ⟨2024, 1, 31⟩, line_items := [li0] }

/-- Sample invoice: as inv5d but issued. -/
def inv5i : Invoice := { inv5d with date_issued := some ⟨2024, 1, 2⟩ }

/-- Sample journal entries (a balanced debit/credit pair). -/
def e3d : JournalEntry := { account_code := "Business Bank Account", debit := 100 }

/-- Credit half of the sample pair, on an unclassified account. -/
def e3c : JournalEntry := { account_code := "EXPENSE:UNCLASSIFIED", credit := 100 }

/-- Sample transaction. -/
def txn3 : Transaction :=
  { transaction_id := "TXN-1", date := ⟨2025, 8, 1⟩,
    description := "COLES PERTH 1234", entries := [e3d, e3c] }

/-- Empty registry. -/
def emptyReg : StorageRegistry := {}

/-- Empty data directory. -/
def emptyDisk : Disk := {}

/-- Registry holding exactly the sample transaction. -/
def s7 : StorageRegistry := { transactions := [(("TXN-1", ⟨2025, 8, 1⟩), txn3)] }

/-- Sample clients whose ids differ only in case. -/
def clA : Client := { client_id := "Acme", name := "Acme" }

/-- Second sample client, same case-folded id as clA. -/
def clA2 : Client := { client_id := "ACME", name := "Acme Two" }

/-- Data directory whose clients file holds clA. -/
def d1disk : Disk := { clientsFile := [clA] }

/-- Sample quote for the round-trip witness. -/
def q2 : Quote :=
  { quote_id := "Q-1", client_id := "Acme", date_created := ⟨2025, 8, 1⟩,
    date_valid_until := ⟨2025, 9, 1⟩, line_items := [li0] }

/-- Sample invoice for the round-trip witness. -/
def i2 : Invoice :=
  { invoice_id := "INV-2", client_id := "Acme", date_created := ⟨2025, 8, 1⟩,
    date_due := ⟨2025, 9, 1⟩, line_items := [li0] }

/-- Sample job for the round-trip witness. -/
def j2 : Job := { job_id := "J-1", client_id := "Acme", date_accepted := ⟨2025, 8, 1⟩ }

/-- Sample rule that does not match the sample description. -/
def ruleWool : ClassificationRule :=
  { pattern := "WOOLWORTHS", account_code := "Groceries",
    description := "Woolies", gst_inclusive := true, priority := 9 }

/-- Sample rule learned from the sample transaction. -/
def r10 : ClassificationRule :=
  { pattern := "COLES", account_code := "Groceries", description := "Coles",
    gst_inclusive := true, priority := 0 }

/-- Sample quote in SENT state at today8. -/
def q8 : Quote :=
  { quote_id := "Q-1", client_id := "Acme", date_created := ⟨2025, 8, 1⟩,
    date_sent := some ⟨2025, 8, 2⟩, date_valid_until := ⟨2025, 12, 31⟩,
    line_items := [li0] }

/-- Data directory holding one version file of q8. -/
def d8 : Disk := { quoteFiles := [(("2025-26", "Q-1", 1), q8)] }

/-- Acceptance day for the workflow witness. -/
def today8 : DDate := ⟨2025, 8, 10⟩

theorem alookup_aupsert_self {K V : Type} [DecidableEq K]
    (m : List (K × V)) (k : K) (v : V) : alookup (aupsert m k v) k = some v := by
  induction m with
  | nil => simp [aupsert, alookup]
  | cons p rest ih =>
    obtain ⟨k1, v1⟩ := p
    by_cases h : k1 = k
    · simp [aupsert, h, alookup]
    · simp [aupsert, h, alookup, ih]

theorem alookup_aupsert_ne {K V : Type} [DecidableEq K]
    (m : List (K × V)) (k k' : K) (v : V) (h : k' ≠ k) :
    alookup (aupsert m k v) k' = alookup m k' := by
  have h2 : ¬ k = k' := fun hh => h hh.symm
  induction m with
  | nil => simp [aupsert, alookup, h2]
  | cons p rest ih =>
    obtain ⟨k1, v1⟩ := p
    by_cases hp : k1 = k
    · have hq : ¬ k1 = k' := fun hc => h2 (hp ▸ hc)
      simp [aupsert, hp, alookup, hq, h2]
    · by_cases hq : k1 = k'
      · simp [aupsert, hp, alookup, hq, h]
      · simp [aupsert, hp, alookup, hq, ih]

theorem alookup_eq_none_iff {K V : Type} [DecidableEq K]
    (m : List (K × V)) (k : K) :
    alookup m k = none ↔ ∀ p ∈ m, p.1 ≠ k := by
  induction m with
  | nil => simp [alookup]
  | cons p rest ih =>
    obtain ⟨k1, v1⟩ := p
    by_cases h : k1 = k
    · simp [alookup, h]
    · simp [alookup, h, ih]

theorem alookup_some_mem {K V : Type} [DecidableEq K]
    (m : List (K × V)) (k : K) (v : V) (h : alookup m k = some v) : (k, v) ∈ m := by
  induction m with
  | nil => simp [alookup] at h
  | cons p rest ih =>
    obtain ⟨k1, v1⟩ := p
    by_cases hp : k1 = k
    · simp only [alookup, if_pos hp, Option.some.injEq] at h
      subst hp
      subst h
      exact List.mem_cons_self _ _
    · simp only [alookup, if_neg hp] at h
      exact List.mem_cons_of_mem _ (ih h)

theorem aupsert_of_lookup_none {K V : Type} [DecidableEq K]
    (m : List (K × V)) (k : K) (v : V) (h : alookup m k = none) :
    aupsert m k v = m ++ [(k, v)] := by
  induction m with
  | nil => simp [aupsert]
  | cons p rest ih =>
    obtain ⟨k1, v1⟩ := p
    by_cases hp : k1 = k
    · simp [alookup, hp] at h
    · simp only [alookup, if_neg hp] at h
      simp [aupsert, hp, ih h]

theorem mem_aupsert_self {K V : Type} [DecidableEq K]
    (m : List (K × V)) (k : K) (v : V) :
    ∃ p ∈ aupsert m k v, p.1 = k ∧ p.2 = v := by
  induction m with
  | nil => exact ⟨(k, v), by simp [aupsert]⟩
  | cons p rest ih =>
    obtain ⟨k1, v1⟩ := p
    by_cases hp : k1 = k
    · exact ⟨(k1, v), by simp [aupsert, hp], hp, rfl⟩
    · obtain ⟨q, hq, hq1, hq2⟩ := ih
      exact ⟨q, by simp [aupsert, hp, hq], hq1, hq2⟩

theorem mem_aupsert_elim {K V : Type} [DecidableEq K]
    (m : List (K × V)) (k : K) (v : V) (p : K × V) (h : p ∈ aupsert m k v) :
    p ∈ m ∨ (p.1 = k ∧ p.2 = v) := by
  induction m with
  | nil =>
    simp [aupsert] at h
    exact Or.inr ⟨by rw [h], by rw [h]⟩
  | cons q rest ih =>
    obtain ⟨k1, v1⟩ := q
    by_cases hq : k1 = k
    · simp only [aupsert, if_pos hq] at h
      rcases List.mem_cons.mp h with h1 | h1
      · exact Or.inr ⟨by rw [h1, hq], by rw [h1]⟩
      · exact Or.inl (List.mem_cons_of_mem _ h1)
    · simp only [aupsert, if_neg hq] at h
      rcases List.mem_cons.mp h with h1 | h1
      · exact Or.inl (by simp [h1])
      · rcases ih h1 with h2 | h2
        · exact Or.inl (List.mem_cons_of_mem _ h2)
        · exact Or.inr h2

theorem keys_aupsert_sub {K V : Type} [DecidableEq K]
    (m : List (K × V)) (k : K) (v : V) (k' : K)
    (h : k' ∈ (aupsert m k v).map Prod.fst) : k' ∈ m.map Prod.fst ∨ k' = k := by
  simp only [List.mem_map] at h
  obtain ⟨p, hp, hpk⟩ := h
  rcases mem_aupsert_elim m k v p hp with h1 | h1
  · exact Or.inl (List.mem_map.mpr ⟨p, h1, hpk⟩)
  · exact Or.inr (hpk ▸ h1.1 ▸ rfl)

theorem keys_nodup_aupsert {K V : Type} [DecidableEq K]
    (m : List (K × V)) (k : K) (v : V) (h : (m.map Prod.fst).Nodup) :
    ((aupsert m k v).map Prod.fst).Nodup := by
  induction m with
  | nil => simp [aupsert]
  | cons p rest ih =>
    obtain ⟨k1, v1⟩ := p
    by_cases hp : k1 = k
    · simpa [aupsert, hp] using h
    · simp only [List.map_cons, List.nodup_cons] at h
      simp only [aupsert, if_neg hp, List.map_cons, List.nodup_cons]
      refine ⟨?_, ih h.2⟩
      intro hmem
      rcases keys_aupsert_sub rest k v k1 hmem with h1 | h1
      · exact h.1 h1
      · exact hp h1

theorem alookup_of_mem_nodup {K V : Type} [DecidableEq K]
    (m : List (K × V)) (p : K × V) (hnd : (m.map Prod.fst).Nodup) (h : p ∈ m) :
    alookup m p.1 = some p.2 := by
  induction m with
  | nil => simp at h
  | cons q rest ih =>
    obtain ⟨k1, v1⟩ := q
    simp only [List.map_cons, List.nodup_cons] at hnd
    rcases List.mem_cons.mp h with h1 | h1
    · simp [alookup, h1]
    · have hq : ¬ k1 = p.1 := by
        intro hc
        exact hnd.1 (List.mem_map.mpr ⟨p, h1, hc.symm⟩)
      simp [alookup, hq, ih hnd.2 h1]

theorem alookup_aupsert_elim {K V : Type} [DecidableEq K]
    (m : List (K × V)) (k0 k : K) (v0 v : V)
    (h : alookup (aupsert m k0 v0) k = some v) :
    (k = k0 ∧ v = v0) ∨ alookup m k = some v := by
  by_cases hk : k = k0
  · subst hk
    rw [alookup_aupsert_self] at h
    exact Or.inl ⟨rfl, (Option.some.injEq _ _ ▸ h).symm⟩
  · rw [alookup_aupsert_ne m k0 k v0 hk] at h
    exact Or.inr h

theorem alookup_aupsert_none_iff {K V : Type} [DecidableEq K]
    (m : List (K × V)) (k0 k : K) (v0 : V) :
    alookup (aupsert m k0 v0) k = none ↔ k ≠ k0 ∧ alookup m k = none := by
  by_cases hk : k = k0
  · subst hk
    simp [alookup_aupsert_self]
  · simp [alookup_aupsert_ne m k0 k v0 hk, hk]

theorem keyFold_append_last {K V : Type} [DecidableEq K] (keyOf : V → K)
    (acc : List (K × V)) (xs : List V) (v : V) :
    alookup (keyFold keyOf acc (xs ++ [v])) (keyOf v) = some v := by
  simp only [keyFold, List.foldl_append, List.foldl_cons, List.foldl_nil]
  exact alookup_aupsert_self _ _ _

theorem keyFold_lookup_elim {K V : Type} [DecidableEq K] (keyOf : V → K)
    (xs : List V) :
    ∀ acc k v, alookup (keyFold keyOf acc xs) k = some v →
      (v ∈ xs ∧ keyOf v = k) ∨ alookup acc k = some v := by
  induction xs with
  | nil => exact fun acc k v h => Or.inr h
  | cons x rest ih =>
    intro acc k v h
    rcases ih (aupsert acc (keyOf x) x) k v h with h1 | h1
    · exact Or.inl ⟨List.mem_cons_of_mem _ h1.1, h1.2⟩
    · rcases alookup_aupsert_elim acc (keyOf x) k x v h1 with h2 | h2
      · exact Or.inl ⟨by rw [h2.2]; exact List.mem_cons_self _ _, by rw [h2.2, h2.1]⟩
      · exact Or.inr h2

theorem keyFold_lookup_none_iff {K V : Type} [DecidableEq K] (keyOf : V → K)
    (xs : List V) :
    ∀ acc k, alookup (keyFold keyOf acc xs) k = none ↔
      (∀ v ∈ xs, keyOf v ≠ k) ∧ alookup acc k = none := by
  induction xs with
  | nil => simp [keyFold]
  | cons x rest ih =>
    intro acc k
    have step : keyFold keyOf acc (x :: rest) = keyFold keyOf (aupsert acc (keyOf x) x) rest := rfl
    rw [step, ih, alookup_aupsert_none_iff]
    constructor
    · rintro ⟨h1, h2, h3⟩
      refine ⟨?_, h3⟩
      intro v hv
      rcases List.mem_cons.mp hv with hv1 | hv1
      · rw [hv1]
        exact fun hc => h2 hc.symm
      · exact h1 v hv1
    · rintro ⟨h1, h3⟩
      exact ⟨fun v hv => h1 v (List.mem_cons_of_mem _ hv),
             fun hc => h1 x (List.mem_cons_self _ _) hc.symm, h3⟩

theorem keyFold_keys_nodup {K V : Type} [DecidableEq K] (keyOf : V → K)
    (xs : List V) :
    ∀ acc, (acc.map Prod.fst).Nodup → ((keyFold keyOf acc xs).map Prod.fst).Nodup := by
  induction xs with
  | nil => exact fun acc h => h
  | cons x rest ih =>
    intro acc h
    exact ih _ (keys_nodup_aupsert acc (keyOf x) x h)

theorem keyFold_entry_key {K V : Type} [DecidableEq K] (keyOf : V → K)
    (xs : List V) :
    ∀ acc, (∀ p ∈ acc, p.1 = keyOf p.2) →
      ∀ p ∈ keyFold keyOf acc xs, p.1 = keyOf p.2 := by
  induction xs with
  | nil => exact fun acc h => h
  | cons x rest ih =>
    intro acc h
    refine ih _ ?_
    intro p hp
    rcases mem_aupsert_elim acc (keyOf x) x p hp with h1 | h1
    · exact h p h1
    · rw [h1.1, h1.2]

theorem keyFold_mem_elim {K V : Type} [DecidableEq K] (keyOf : V → K)
    (xs : List V) :
    ∀ acc p, p ∈ keyFold keyOf acc xs → p ∈ acc ∨ p.2 ∈ xs := by
  induction xs with
  | nil => exact fun acc p h => Or.inl h
  | cons x rest ih =>
    intro acc p h
    rcases ih _ p h with h1 | h1
    · rcases mem_aupsert_elim acc (keyOf x) x p h1 with h2 | h2
      · exact Or.inl h2
      · exact Or.inr (by rw [h2.2]; exact List.mem_cons_self _ _)
    · exact Or.inr (List.mem_cons_of_mem _ h1)

-- Claim theorems

/-- C5 (counterexample): the claim as stated derives OVERDUE for an invoice
with no cancellation or payment date whose date_due is before today, but the
code additionally requires date_issued to be set: for an unissued such
invoice `Invoice.status` yields DRAFT while the claimed derivation yields
OVERDUE. -/
theorem c5_status_counterexample :
    Invoice.status inv5d today5 = InvoiceStatus.draft ∧
    claimed_status_c5 inv5d today5 = InvoiceStatus.overdue ∧
    InvoiceStatus.draft ≠ InvoiceStatus.overdue := by
  decide

/-- C5 (amended): the derived invoice status follows
cancelled > paid > (when issued: overdue if today is after date_due, else
sent) > draft: CANCELLED when date_cancelled is set; else PAID when
date_paid is set; else, when date_issued is set, OVERDUE when today is
after date_due and SENT otherwise; else DRAFT. -/
theorem c5_status_derivation (inv : Invoice) (today : DDate) :
    (inv.date_cancelled.isSome = true →
       Invoice.status inv today = InvoiceStatus.cancelled) ∧
    (inv.date_cancelled = none → inv.date_paid.isSome = true →
       Invoice.status inv today = InvoiceStatus.paid) ∧
    (inv.date_cancelled = none → inv.date_paid = none →
       inv.date_issued.isSome = true →
       Invoice.status inv today =
         (if dateAfter today inv.date_due then InvoiceStatus.overdue
          else InvoiceStatus.sent)) ∧
    (inv.date_cancelled = none → inv.date_paid = none → inv.date_issued = none →
       Invoice.status inv today = InvoiceStatus.draft) := by
  unfold Invoice.status
  refine ⟨?_, ?_, ?_, ?_⟩ <;> intros <;> simp_all

/-- C5 (witness): the amended derivation applied to a concrete issued,
unpaid, uncancelled invoice with a past due date, which is OVERDUE. -/
theorem c5_status_witness :
    inv5i.date_cancelled = none ∧ inv5i.date_paid = none ∧
    inv5i.date_issued.isSome = true ∧
    Invoice.status inv5i today5 =
      (if dateAfter today5 inv5i.date_due then InvoiceStatus.overdue
       else InvoiceStatus.sent) ∧
    Invoice.status inv5i today5 = InvoiceStatus.overdue :=
  ⟨rfl, rfl, rfl, (c5_status_derivation inv5i today5).2.2.1 rfl rfl rfl, by decide⟩

/-- C9: apply_classification keeps the transaction id, date, description and
every entry's amounts, replaces account codes containing "UNCLASSIFIED" with
the matched rule's account code, and resets gst_inclusive, receipt_path and
notes to their defaults (false, none, ""). The input transaction is a pure
value, so it is not modified. -/
theorem c9_apply_classification (t : Transaction) (m : RuleMatch) :
    (apply_classification t m).transaction_id = t.transaction_id ∧
    (apply_classification t m).date = t.date ∧
    (apply_classification t m).description = t.description ∧
    (apply_classification t m).gst_inclusive = false ∧
    (apply_classification t m).receipt_path = none ∧
    (apply_classification t m).notes = "" ∧
    (apply_classification t m).entries = t.entries.map
      (fun entry =>
        { account_code :=
            if strContains entry.account_code ("UNCLASSIFIED") then
              m.rule.account_code
            else entry.account_code,
          debit := entry.debit, credit := entry.credit }) := by
  refine ⟨rfl, rfl, rfl, rfl, rfl, rfl, ?_⟩
  unfold apply_classification
  simp only
  refine List.map_congr_left ?_
  intro entry _
  by_cases h : strContains entry.account_code ("UNCLASSIFIED")
  · simp [h]
  · simp [h]

/-- C3: save_transaction raises exactly when the (transaction_id, date) key
is already stored; when it raises, memory and disk are unchanged; and after
a successful save, saving the same transaction again raises. -/
theorem c3_save_transaction_conflict (s : StorageRegistry) (d : Disk)
    (t : Transaction) :
    ((save_transaction s d t).1.isSome = true ↔
       (alookup s.transactions (txnKey t)).isSome = true) ∧
    ((save_transaction s d t).1.isSome = true →
       (save_transaction s d t).2.1 = s ∧ (save_transaction s d t).2.2 = d) ∧
    (∀ s2 d2, save_transaction s d t = (none, s2, d2) →
       (save_transaction s2 d2 t).1.isSome = true) := by
  unfold save_transaction
  cases h : alookup s.transactions (txnKey t) with
  | some v =>
    refine ⟨by simp, fun _ => ⟨rfl, rfl⟩, ?_⟩
    intro s2 d2 heq
    exact absurd (congrArg (fun p => p.1) heq) (by simp)
  | none =>
    refine ⟨by simp, by simp, ?_⟩
    intro s2 d2 heq
    have hs2 : { s with transactions := aupsert s.transactions (txnKey t) t } = s2 :=
      congrArg (fun p => p.2.1) heq
    rw [← hs2]
    simp [alookup_aupsert_self]

/-- C3 (witness): a concrete duplicate rejection: saving txn3 into the empty
registry succeeds, and saving it again into the resulting state raises. -/
theorem c3_conflict_witness :
    save_transaction emptyReg emptyDisk txn3 =
      (none, (save_transaction emptyReg emptyDisk txn3).2.1,
       (save_transaction emptyReg emptyDisk txn3).2.2) ∧
    (save_transaction (save_transaction emptyReg emptyDisk txn3).2.1
       (save_transaction emptyReg emptyDisk txn3).2.2 txn3).1.isSome = true :=
  ⟨by decide,
   (c3_save_transaction_conflict emptyReg emptyDisk txn3).2.2
     (save_transaction emptyReg emptyDisk txn3).2.1
     (save_transaction emptyReg emptyDisk txn3).2.2 (by decide)⟩

theorem fmax_acc (xs : List RuleMatch) :
    ∀ a : RuleMatch, xs.foldl fmStep (some a) =
      fmCombine a (first_max_by_priority xs) := by
  induction xs with
  | nil => intro a; rfl
  | cons y ys ih =>
    intro a
    show List.foldl fmStep (fmStep (some a) y) ys = _
    have hz : fmStep (some a) y =
        (if a.rule.priority < y.rule.priority then some y else some a) := rfl
    have hcons : first_max_by_priority (y :: ys) = List.foldl fmStep (some y) ys := rfl
    rw [hz, hcons, ih y]
    by_cases hay : a.rule.priority < y.rule.priority
    · rw [if_pos hay, ih y]
      cases hys : first_max_by_priority ys with
      | none =>
        show some y = fmCombine a (some y)
        show some y = if a.rule.priority < y.rule.priority then some y else some a
        rw [if_pos hay]
      | some h =>
        show (if y.rule.priority < h.rule.priority then some h else some y) =
          fmCombine a (if y.rule.priority < h.rule.priority then some h else some y)
        by_cases hyh : y.rule.priority < h.rule.priority
        · rw [if_pos hyh]
          show some h = if a.rule.priority < h.rule.priority then some h else some a
          rw [if_pos (by omega)]
        · rw [if_neg hyh]
          show some y = if a.rule.priority < y.rule.priority then some y else some a
          rw [if_pos hay]
    · rw [if_neg hay, ih a]
      cases hys : first_max_by_priority ys with
      | none =>
        show some a = fmCombine a (some y)
        show some a = if a.rule.priority < y.rule.priority then some y else some a
        rw [if_neg hay]
      | some h =>
        show fmCombine a (some h) =
          fmCombine a (if y.rule.priority < h.rule.priority then some h else some y)
        by_cases hyh : y.rule.priority < h.rule.priority
        · rw [if_pos hyh]
        · rw [if_neg hyh]
          show (if a.rule.priority < h.rule.priority then some h else some a) =
            if a.rule.priority < y.rule.priority then some y else some a
          rw [if_neg (by omega), if_neg hay]

theorem fmCombine_ne_none (a : RuleMatch) (o : Option RuleMatch) :
    fmCombine a o ≠ none := by
  cases o with
  | none => exact fun h => Option.noConfusion h
  | some b =>
    show (if a.rule.priority < b.rule.priority then some b else some a) ≠ none
    by_cases hc : a.rule.priority < b.rule.priority
    · rw [if_pos hc]; exact fun h => Option.noConfusion h
    · rw [if_neg hc]; exact fun h => Option.noConfusion h

theorem first_max_eq_none_iff (ms : List RuleMatch) :
    first_max_by_priority ms = none ↔ ms = [] := by
  cases ms with
  | nil => simp [first_max_by_priority]
  | cons x xs =>
    refine ⟨fun h => ?_, fun h => (List.cons_ne_nil x xs h).elim⟩
    rw [show first_max_by_priority (x :: xs) = xs.foldl fmStep (some x) from rfl,
        fmax_acc xs x] at h
    exact (fmCombine_ne_none x (first_max_by_priority xs) h).elim

theorem head_insertByPriority (m : RuleMatch) (l : List RuleMatch) :
    (insertByPriority m l).head? =
      match l.head? with
      | none => some m
      | some h =>
        if h.rule.priority ≤ m.rule.priority then some m else some h := by
  cases l with
  | nil => rfl
  | cons x xs =>
    show (if x.rule.priority ≤ m.rule.priority then m :: x :: xs
          else x :: insertByPriority m xs).head? = _
    by_cases h : x.rule.priority ≤ m.rule.priority
    · rw [if_pos h]
      simp [h]
    · rw [if_neg h]
      simp [h]

theorem head_sortByPriorityDesc (ms : List RuleMatch) :
    (sortByPriorityDesc ms).head? = first_max_by_priority ms := by
  induction ms with
  | nil => rfl
  | cons x xs ih =>
    rw [show sortByPriorityDesc (x :: xs) = insertByPriority x (sortByPriorityDesc xs)
          from rfl,
        head_insertByPriority, ih,
        show first_max_by_priority (x :: xs) = xs.foldl fmStep (some x) from rfl,
        fmax_acc xs x]
    cases hys : first_max_by_priority xs with
    | none => rfl
    | some h =>
      show (if h.rule.priority ≤ x.rule.priority then some x else some h) =
        fmCombine x (some h)
      show (if h.rule.priority ≤ x.rule.priority then some x else some h) =
        if x.rule.priority < h.rule.priority then some h else some x
      by_cases hc : x.rule.priority < h.rule.priority
      · rw [if_neg (by omega), if_pos hc]
      · rw [if_pos (by omega), if_neg hc]

/-- C4: find_best_match returns none exactly when no rule's pattern matches
the description case-insensitively, and otherwise returns the matching rule
with the highest priority, ties broken in favour of the earliest rule in the
input list (the first maximum of the matches in input order). -/
theorem c4_find_best_match (descr : String) (rules : List ClassificationRule) :
    (find_best_match descr rules = none ↔
       ∀ r ∈ rules, match_pattern descr r = none) ∧
    find_best_match descr rules =
      first_max_by_priority (rules.filterMap (fun r => match_pattern descr r)) := by
  have h2 : find_best_match descr rules =
      first_max_by_priority (rules.filterMap (fun r => match_pattern descr r)) := by
    unfold find_best_match
    simp only
    by_cases h : (rules.filterMap (fun r => match_pattern descr r)).isEmpty
    · rw [if_pos h]
      rw [List.isEmpty_iff] at h
      rw [h]
      rfl
    · rw [if_neg h, head_sortByPriorityDesc]
  refine ⟨?_, h2⟩
  rw [h2, first_max_eq_none_iff, List.filterMap_eq_nil_iff]

/-- C4 (witness): on a rule list none of whose patterns matches the
description, find_best_match returns none. -/
theorem c4_witness :
    (∀ r ∈ [ruleWool], match_pattern ("COLES PERTH 1234") r = none) ∧
    find_best_match ("COLES PERTH 1234") [ruleWool] = none :=
  ⟨by decide,
   (c4_find_best_match ("COLES PERTH 1234") [ruleWool]).1.mpr (by decide)⟩

theorem intercalate_single (s a : List Char) : List.intercalate s [a] = a := by
  simp [List.intercalate, List.intersperse]

theorem intercalate_pair (s a b : List Char) :
    List.intercalate s [a, b] = a ++ (s ++ b) := by
  simp [List.intercalate, List.intersperse]

theorem extract_pattern_spec (descr : String) (w1 : List Char)
    (rest : List (List Char)) (h : az_words descr = w1 :: rest) :
    extract_merchant_pattern descr = some (String.mk (c6_spec_pattern w1 rest)) := by
  unfold extract_merchant_pattern
  rw [h]
  show some (String.mk (List.intercalate ([' ']) (pickMerchantWords (w1 :: rest)))) = _
  suffices hs : List.intercalate ([' ']) (pickMerchantWords (w1 :: rest)) =
      c6_spec_pattern w1 rest by rw [hs]
  by_cases s1 : w1 ∈ stop_words
  · have hloop : merchantLoop [] (w1 :: rest) = [] := by
      simp [merchantLoop, s1]
    have hpick : pickMerchantWords (w1 :: rest) = [w1] := by
      simp [pickMerchantWords, hloop, List.headI]
    rw [hpick, intercalate_single]
    unfold c6_spec_pattern
    rw [if_pos s1]
  · cases rest with
    | nil =>
      have hloop : merchantLoop [] [w1] = [w1] := by
        simp [merchantLoop, s1]
      have hpick : pickMerchantWords [w1] = [w1] := by
        simp [pickMerchantWords, hloop]
      rw [hpick, intercalate_single]
      unfold c6_spec_pattern
      rw [if_neg s1]
    | cons w2 r2 =>
      by_cases s2 : w2 ∈ stop_words
      · have hloop : merchantLoop [] (w1 :: w2 :: r2) = [w1] := by
          simp [merchantLoop, s1, s2]
        have hpick : pickMerchantWords (w1 :: w2 :: r2) = [w1] := by
          simp [pickMerchantWords, hloop]
        rw [hpick, intercalate_single]
        unfold c6_spec_pattern
        rw [if_neg s1]
        show w1 = if w1 ∈ known_single_merchants then w1
          else if w2 ∈ stop_words then w1 else w1 ++ ' ' :: w2
        by_cases m1 : w1 ∈ known_single_merchants
        · rw [if_pos m1]
        · rw [if_neg m1, if_pos s2]
      · by_cases m1 : w1 ∈ known_single_merchants
        · have hloop : merchantLoop [] (w1 :: w2 :: r2) = [w1] := by
            simp [merchantLoop, s1, s2, m1, List.headI]
          have hpick : pickMerchantWords (w1 :: w2 :: r2) = [w1] := by
            simp [pickMerchantWords, hloop]
          rw [hpick, intercalate_single]
          unfold c6_spec_pattern
          rw [if_neg s1]
          show w1 = if w1 ∈ known_single_merchants then w1
            else if w2 ∈ stop_words then w1 else w1 ++ ' ' :: w2
          rw [if_pos m1]
        · have hloop : merchantLoop [] (w1 :: w2 :: r2) = [w1, w2] := by
            simp [merchantLoop, s1, s2, m1, List.headI]
          have hpick : pickMerchantWords (w1 :: w2 :: r2) = [w1, w2] := by
            simp [pickMerchantWords, hloop]
          rw [hpick, intercalate_pair]
          unfold c6_spec_pattern
          rw [if_neg s1]
          show w1 ++ ([' '] ++ w2) = if w1 ∈ known_single_merchants then w1
            else if w2 ∈ stop_words then w1 else w1 ++ ' ' :: w2
          rw [if_neg m1, if_neg s2]
          rfl

theorem azRunsAux_eq_nil (l : List Char) :
    ∀ cur, azRunsAux cur l = [] → cur = [] ∧ ∀ c ∈ l, isAZ c = false := by
  induction l with
  | nil =>
    intro cur h
    by_cases hc : cur.isEmpty
    · exact ⟨List.isEmpty_iff.mp hc, by simp⟩
    · rw [show azRunsAux cur [] = if cur.isEmpty then [] else [cur.reverse] from rfl,
        if_neg hc] at h
      exact absurd h (List.cons_ne_nil _ _)
  | cons c tl ih =>
    intro cur h
    rw [show azRunsAux cur (c :: tl) =
        (if isAZ c then azRunsAux (c :: cur) tl
         else if cur.isEmpty then azRunsAux [] tl
         else cur.reverse :: azRunsAux [] tl) from rfl] at h
    by_cases hAZ : isAZ c
    · rw [if_pos hAZ] at h
      exact absurd (ih (c :: cur) h).1 (List.cons_ne_nil _ _)
    · rw [if_neg hAZ] at h
      by_cases hcur : cur.isEmpty
      · rw [if_pos hcur] at h
        refine ⟨List.isEmpty_iff.mp hcur, ?_⟩
        intro x hx
        rcases List.mem_cons.mp hx with hx1 | hx1
        · rw [hx1]
          exact Bool.not_eq_true (isAZ c) ▸ hAZ
        · exact (ih [] h).2 x hx1
      · rw [if_neg hcur] at h
        exact absurd h (List.cons_ne_nil _ _)

theorem azRunsAux_nil_of_forall (l : List Char)
    (h : ∀ c ∈ l, isAZ c = false) : azRunsAux [] l = [] := by
  induction l with
  | nil => rfl
  | cons c tl ih =>
    rw [show azRunsAux [] (c :: tl) =
        (if isAZ c then azRunsAux [c] tl
         else if ([] : List Char).isEmpty then azRunsAux [] tl
         else ([] : List Char).reverse :: azRunsAux [] tl) from rfl]
    rw [if_neg (by rw [h c (List.mem_cons_self _ _)]; exact Bool.false_ne_true),
        if_pos (show ([] : List Char).isEmpty = true from rfl)]
    exact ih (fun x hx => h x (List.mem_cons_of_mem _ hx))

theorem azRunsAux_ne_nil (l : List Char) :
    ∀ cur w, w ∈ azRunsAux cur l → w ≠ [] := by
  induction l with
  | nil =>
    intro cur w hw
    by_cases hc : cur.isEmpty
    · rw [show azRunsAux cur [] = if cur.isEmpty then [] else [cur.reverse] from rfl,
        if_pos hc] at hw
      exact absurd hw (List.not_mem_nil w)
    · rw [show azRunsAux cur [] = if cur.isEmpty then [] else [cur.reverse] from rfl,
        if_neg hc] at hw
      rw [List.mem_singleton.mp hw]
      intro hrev
      exact hc (by
        rw [List.isEmpty_iff]
        have := congrArg List.reverse hrev
        simpa using this)
  | cons c tl ih =>
    intro cur w hw
    rw [show azRunsAux cur (c :: tl) =
        (if isAZ c then azRunsAux (c :: cur) tl
         else if cur.isEmpty then azRunsAux [] tl
         else cur.reverse :: azRunsAux [] tl) from rfl] at hw
    by_cases hAZ : isAZ c
    · rw [if_pos hAZ] at hw
      exact ih (c :: cur) w hw
    · rw [if_neg hAZ] at hw
      by_cases hcur : cur.isEmpty
      · rw [if_pos hcur] at hw
        exact ih [] w hw
      · rw [if_neg hcur] at hw
        rcases List.mem_cons.mp hw with hw1 | hw1
        · rw [hw1]
          intro hrev
          exact hcur (by
            rw [List.isEmpty_iff]
            have := congrArg List.reverse hrev
            simpa using this)
        · exact ih [] w hw1

theorem pyIsSpace_of_toUpper_az (c : Char) (h : isAZ (Char.toUpper c) = true) :
    pyIsSpace c = false := by
  by_contra hcon
  have hsp : pyIsSpace c = true := by
    revert hcon
    cases pyIsSpace c
    · intro hcon; exact absurd rfl hcon
    · intro _; rfl
  have h6 := hsp
  simp only [pyIsSpace, Bool.or_eq_true, beq_iff_eq] at h6
  rcases h6 with ((((h1 | h1) | h1) | h1) | h1) | h1 <;> subst h1 <;>
    exact absurd h (by decide)

theorem firstTokenAux_none_iff (l : List Char) :
    firstTokenAux l = none ↔ ∀ c ∈ l, pyIsSpace c = true := by
  induction l with
  | nil => simp [firstTokenAux]
  | cons c tl ih =>
    by_cases h : pyIsSpace c
    · simp [firstTokenAux, h, ih]
    · simp [firstTokenAux, h]

theorem firstTokenAux_some_ne_nil (l : List Char) :
    ∀ w, firstTokenAux l = some w → w ≠ [] := by
  induction l with
  | nil => intro w h; exact absurd h (by simp [firstTokenAux])
  | cons c tl ih =>
    intro w h
    by_cases hs : pyIsSpace c
    · rw [show firstTokenAux (c :: tl) =
          (if pyIsSpace c then firstTokenAux tl else some (c :: takeNonSpace tl))
            from rfl, if_pos hs] at h
      exact ih w h
    · rw [show firstTokenAux (c :: tl) =
          (if pyIsSpace c then firstTokenAux tl else some (c :: takeNonSpace tl))
            from rfl, if_neg hs] at h
      rw [← Option.some.inj h]
      exact List.cons_ne_nil _ _

theorem c6_spec_pattern_ne_nil (w1 : List Char) (rest : List (List Char))
    (h : w1 ≠ []) : c6_spec_pattern w1 rest ≠ [] := by
  unfold c6_spec_pattern
  by_cases s1 : w1 ∈ stop_words
  · rw [if_pos s1]; exact h
  · rw [if_neg s1]
    cases rest with
    | nil => exact h
    | cons w2 r2 =>
      show (if w1 ∈ known_single_merchants then w1
        else if w2 ∈ stop_words then w1 else w1 ++ ' ' :: w2) ≠ []
      by_cases m1 : w1 ∈ known_single_merchants
      · rw [if_pos m1]; exact h
      · rw [if_neg m1]
        by_cases s2 : w2 ∈ stop_words
        · rw [if_pos s2]; exact h
        · rw [if_neg s2]
          intro hnil
          exact h (List.append_eq_nil.mp hnil).1

/-- C6 (counterexample): for the description "Perth Cafe" the first token
PERTH is itself a stop word, a case the claim does not cover: the code stops
before appending the second token and yields "PERTH", while the claimed
construction appends CAFE and yields "PERTH CAFE". -/
theorem c6_pattern_counterexample :
    extract_merchant_pattern ("Perth Cafe") = some ("PERTH") ∧
    claimed_pattern_c6 ("Perth Cafe") = some ("PERTH CAFE") ∧
    (some ("PERTH") : Option String) ≠ some ("PERTH CAFE") := by
  decide

/-- C6 (amended): for every description whose uppercased form contains at
least one run of ASCII letters, the learned pattern is the first token alone
when that token is a stop word; otherwise the first token, with the second
token appended unless the first token is a known single-word merchant or
the second token is a stop word. -/
theorem c6_merchant_pattern (descr : String) (w1 : List Char)
    (rest : List (List Char)) (h : az_words descr = w1 :: rest) :
    extract_merchant_pattern descr = some (String.mk (c6_spec_pattern w1 rest)) :=
  extract_pattern_spec descr w1 rest h

/-- C6 (witness): the amended pattern construction on the concrete
description "COLES PERTH 1234" (first token a known single-word merchant),
yielding the pattern "COLES". -/
theorem c6_merchant_pattern_witness :
    az_words ("COLES PERTH 1234") = [("COLES").data, ("PERTH").data] ∧
    extract_merchant_pattern ("COLES PERTH 1234") =
      some (String.mk (c6_spec_pattern (("COLES").data) [("PERTH").data])) ∧
    String.mk (c6_spec_pattern (("COLES").data) [("PERTH").data]) = ("COLES") :=
  ⟨by decide, c6_merchant_pattern _ _ _ (by decide), by decide⟩

/-- C10: learn_rule succeeds exactly when the transaction description has at
least one non-whitespace character (an all-whitespace description reaches
the IndexError of the fallback `description.strip().split()[0]`, modelled as
none), and every successfully learned rule has a non-empty pattern. -/
theorem c10_learn_rule_totality (t : Transaction) (account_code descr : String)
    (gst : Bool) (prio : Nat) :
    ((learn_rule t account_code descr gst prio).isSome = true ↔
       ∃ c ∈ t.description.data, pyIsSpace c = false) ∧
    (∀ r, learn_rule t account_code descr gst prio = some r → r.pattern ≠ "") := by
  have hlr : learn_rule t account_code descr gst prio =
      (extract_merchant_pattern t.description).map
        (fun p =>
          { pattern := p, account_code := account_code, description := descr,
            gst_inclusive := gst, priority := prio }) := rfl
  cases hw : az_words t.description with
  | nil =>
    have he : extract_merchant_pattern t.description =
        (firstTokenAux t.description.data).map String.mk := by
      unfold extract_merchant_pattern
      rw [hw]
    constructor
    · rw [hlr, he]
      cases hft : firstTokenAux t.description.data with
      | none =>
        constructor
        · intro hcon
          exact absurd hcon (by simp)
        · rintro ⟨c, hc, hcf⟩
          have := (firstTokenAux_none_iff _).mp hft c hc
          rw [hcf] at this
          exact absurd this Bool.false_ne_true
      | some wtok =>
        constructor
        · intro _
          by_contra hno
          push_neg at hno
          have hall : ∀ c ∈ t.description.data, pyIsSpace c = true := by
            intro c hc
            have hcc := hno c hc
            revert hcc
            cases pyIsSpace c
            · intro hcc; exact absurd rfl hcc
            · intro _; rfl
          rw [(firstTokenAux_none_iff _).mpr hall] at hft
          exact Option.noConfusion hft
        · intro _
          simp
    · intro r hr
      rw [hlr, he] at hr
      cases hft : firstTokenAux t.description.data with
      | none =>
        rw [hft] at hr
        exact absurd hr (by simp)
      | some wtok =>
        rw [hft] at hr
        have hrp : r.pattern = String.mk wtok := by
          rw [← Option.some.inj hr]
        rw [hrp]
        intro hpat
        exact firstTokenAux_some_ne_nil _ wtok hft (congrArg String.data hpat)
  | cons w1 rest =>
    have he := extract_pattern_spec t.description w1 rest hw
    constructor
    · rw [hlr, he]
      constructor
      · intro _
        have hne : ¬ ∀ c ∈ t.description.data.map Char.toUpper, isAZ c = false := by
          intro hall
          have hnil : az_words t.description = [] := azRunsAux_nil_of_forall _ hall
          rw [hw] at hnil
          exact List.cons_ne_nil _ _ hnil
        push_neg at hne
        obtain ⟨c, hc, hcAZ⟩ := hne
        rw [List.mem_map] at hc
        obtain ⟨c0, hc0, hc0u⟩ := hc
        refine ⟨c0, hc0, ?_⟩
        apply pyIsSpace_of_toUpper_az
        rw [hc0u]
        revert hcAZ
        cases isAZ c
        · intro hcAZ; exact absurd rfl hcAZ
        · intro _; rfl
      · intro _
        simp
    · intro r hr
      rw [hlr, he] at hr
      have hrp : r.pattern = String.mk (c6_spec_pattern w1 rest) := by
        rw [← Option.some.inj hr]
      rw [hrp]
      intro hpat
      have hw1mem : w1 ∈ azRunsAux [] (t.description.data.map Char.toUpper) := by
        rw [show azRunsAux [] (t.description.data.map Char.toUpper) =
            az_words t.description from rfl, hw]
        exact List.mem_cons_self _ _
      exact c6_spec_pattern_ne_nil w1 rest
        (azRunsAux_ne_nil _ [] w1 hw1mem) (congrArg String.data hpat)

/-- C10 (witness): learning from the sample transaction (a description with
non-whitespace characters) yields the rule r10, whose pattern "COLES" is
non-empty. -/
theorem c10_totality_witness :
    learn_rule txn3 ("Groceries") ("Coles") true 0 = some r10 ∧
    r10.pattern ≠ "" :=
  ⟨by decide,
   (c10_learn_rule_totality txn3 ("Groceries") ("Coles") true 0).2 r10 (by decide)⟩

/-- C7: voiding a stored transaction creates and saves a new transaction
whose entries are the original's with debit and credit swapped (same account
codes, same amounts), and the original transaction remains stored unchanged
and retrievable under its (id, date) key. The freshness of the generated
(freshId, today) key models the uuid id generator. -/
theorem c7_void_transaction (s : StorageRegistry) (d : Disk) (tid : String)
    (tdate today : DDate) (fid : String) (orig : Transaction)
    (horig : get_transaction s tid tdate = some orig)
    (hfresh : get_transaction s fid today = none) :
    (void_transaction s d tid tdate today fid).1 = none ∧
    ∃ v, (void_transaction s d tid tdate today fid).2.2.2 = some v ∧
      v.entries = orig.entries.map
        (fun entry =>
          { account_code := entry.account_code,
            debit := entry.credit, credit := entry.debit }) ∧
      get_transaction (void_transaction s d tid tdate today fid).2.1 fid today
        = some v ∧
      get_transaction (void_transaction s d tid tdate today fid).2.1 tid tdate
        = some orig := by
  have hfresh2 : alookup s.transactions (fid, today) = none := hfresh
  have horig2 : alookup s.transactions (tid, tdate) = some orig := horig
  have hsv : save_transaction s d (make_void_txn orig tid today fid) =
      (none,
       { s with transactions :=
           aupsert s.transactions (fid, today) (make_void_txn orig tid today fid) },
       appendTxnLine d (make_void_txn orig tid today fid)) := by
    unfold save_transaction
    rw [show txnKey (make_void_txn orig tid today fid) = (fid, today) from rfl,
        hfresh2]
  have hmain : void_transaction s d tid tdate today fid =
      (none,
       { s with transactions :=
           aupsert s.transactions (fid, today) (make_void_txn orig tid today fid) },
       appendTxnLine d (make_void_txn orig tid today fid),
       some (make_void_txn orig tid today fid)) := by
    unfold void_transaction
    rw [horig]
    show (match save_transaction s d (make_void_txn orig tid today fid) with
          | (some err, _, _) => (some err, s, d, none)
          | (none, s2, d2) =>
            (none, s2, d2, some (make_void_txn orig tid today fid))) = _
    rw [hsv]
  have hkne : (tid, tdate) ≠ (fid, today) := by
    intro hkeq
    rw [hkeq, hfresh2] at horig2
    exact Option.noConfusion horig2
  refine ⟨by rw [hmain], make_void_txn orig tid today fid, by rw [hmain], rfl,
    ?_, ?_⟩
  · rw [hmain]
    exact alookup_aupsert_self _ _ _
  · rw [hmain]
    show alookup
      (aupsert s.transactions (fid, today) (make_void_txn orig tid today fid))
      (tid, tdate) = some orig
    rw [alookup_aupsert_ne _ _ _ _ hkne]
    exact horig2

/-- C7 (witness): voiding the concrete stored transaction txn3 with a fresh
(id, date), checking the swapped entries and the untouched original. -/
theorem c7_void_witness :
    get_transaction s7 ("TXN-1") ⟨2025, 8, 1⟩ = some txn3 ∧
    get_transaction s7 ("TXN-V") ⟨2025, 9, 1⟩ = none ∧
    ((void_transaction s7 emptyDisk ("TXN-1") ⟨2025, 8, 1⟩ ⟨2025, 9, 1⟩
        ("TXN-V")).1 = none ∧
     ∃ v, (void_transaction s7 emptyDisk ("TXN-1") ⟨2025, 8, 1⟩ ⟨2025, 9, 1⟩
        ("TXN-V")).2.2.2 = some v ∧
       v.entries = txn3.entries.map
         (fun entry =>
           { account_code := entry.account_code,
             debit := entry.credit, credit := entry.debit }) ∧
       get_transaction (void_transaction s7 emptyDisk ("TXN-1") ⟨2025, 8, 1⟩
         ⟨2025, 9, 1⟩ ("TXN-V")).2.1 ("TXN-V") ⟨2025, 9, 1⟩ = some v ∧
       get_transaction (void_transaction s7 emptyDisk ("TXN-1") ⟨2025, 8, 1⟩
         ⟨2025, 9, 1⟩ ("TXN-V")).2.1 ("TXN-1") ⟨2025, 8, 1⟩ = some txn3) :=
  ⟨by decide, by decide,
   c7_void_transaction s7 emptyDisk ("TXN-1") ⟨2025, 8, 1⟩ ⟨2025, 9, 1⟩
     ("TXN-V") txn3 (by decide) (by decide)⟩

/-- C1 (counterexample): after loading a directory holding client clA and
saving clA2 (same case-folded id), the code leaves the clients file with two
lines for the id "acme" -- an append, not the claimed full-collection
rewrite with exactly one line per case-folded id. -/
theorem c1_rewrite_counterexample :
    (save_client (loadAll d1disk).1 (loadAll d1disk).2 clA2).2.clientsFile
      = [clA, clA2] ∧
    ((save_client (loadAll d1disk).1 (loadAll d1disk).2 clA2).2.clientsFile.countP
       (fun c => clientKey c == ("acme"))) = 2 ∧ (2 : Nat) ≠ 1 := by
  decide

/-- C1 (amended): save_client upserts the in-memory collection by
case-folded id, keeping the supplied case, and persists by appending one
line to the clients JSONL file; the one-line-per-case-folded-id compaction
happens at the next load, after which the saved record is the one read
back. -/
theorem c1_save_client_appends (s : StorageRegistry) (d : Disk) (c : Client) :
    get_client (save_client s d c).1 c.client_id = some c ∧
    (save_client s d c).2.clientsFile = d.clientsFile ++ [c] ∧
    get_client (loadAll (save_client s d c).2).1 c.client_id = some c ∧
    ((loadAll (save_client s d c).2).2.clientsFile.map clientKey).Nodup := by
  refine ⟨?_, rfl, ?_, ?_⟩
  · show alookup (aupsert s.clients (clientKey c) c) (strLower c.client_id) = some c
    exact alookup_aupsert_self _ _ _
  · show alookup (load_clients (d.clientsFile ++ [c])) (strLower c.client_id) = some c
    exact keyFold_append_last clientKey [] d.clientsFile c
  · show ((compact_clients (load_clients (d.clientsFile ++ [c]))).map clientKey).Nodup
    have hkeys : ∀ p ∈ load_clients (d.clientsFile ++ [c]), p.1 = clientKey p.2 :=
      keyFold_entry_key clientKey _ []
        (fun p hp => absurd hp (List.not_mem_nil p))
    have hmapeq : (compact_clients (load_clients (d.clientsFile ++ [c]))).map clientKey
        = (load_clients (d.clientsFile ++ [c])).map Prod.fst := by
      unfold compact_clients
      rw [List.map_map]
      exact List.map_congr_left (fun p hp => (hkeys p hp).symm)
    rw [hmapeq]
    exact keyFold_keys_nodup clientKey _ [] (by simp)

theorem updateLatest_self_ge (lat : List (String × Nat)) (eid : String) (ver : Nat) :
    ∃ v1, alookup (updateLatest lat eid ver) eid = some v1 ∧ ver ≤ v1 := by
  unfold updateLatest
  cases h : alookup lat eid with
  | none => exact ⟨ver, alookup_aupsert_self _ _ _, le_refl _⟩
  | some v0 =>
    show ∃ v1, alookup (if v0 < ver then aupsert lat eid ver else lat) eid
      = some v1 ∧ ver ≤ v1
    by_cases hc : v0 < ver
    · rw [if_pos hc]
      exact ⟨ver, alookup_aupsert_self _ _ _, le_refl _⟩
    · rw [if_neg hc]
      exact ⟨v0, h, by omega⟩

theorem updateLatest_mono (lat : List (String × Nat)) (eid : String) (ver : Nat)
    (k : String) (v0 : Nat) (h : alookup lat k = some v0) :
    ∃ v1, alookup (updateLatest lat eid ver) k = some v1 ∧ v0 ≤ v1 := by
  unfold updateLatest
  by_cases hk : k = eid
  · subst hk
    rw [h]
    show ∃ v1, alookup (if v0 < ver then aupsert lat k ver else lat) k
      = some v1 ∧ v0 ≤ v1
    by_cases hc : v0 < ver
    · rw [if_pos hc]
      exact ⟨ver, alookup_aupsert_self _ _ _, by omega⟩
    · rw [if_neg hc]
      exact ⟨v0, h, le_refl _⟩
  · cases h2 : alookup lat eid with
    | none =>
      refine ⟨v0, ?_, le_refl _⟩
      rw [alookup_aupsert_ne _ _ _ _ hk]
      exact h
    | some w =>
      show ∃ v1, alookup (if w < ver then aupsert lat eid ver else lat) k
        = some v1 ∧ v0 ≤ v1
      by_cases hc : w < ver
      · rw [if_pos hc]
        refine ⟨v0, ?_, le_refl _⟩
        rw [alookup_aupsert_ne _ _ _ _ hk]
        exact h
      · rw [if_neg hc]
        exact ⟨v0, h, le_refl _⟩

theorem updateLatest_elim (lat : List (String × Nat)) (eid : String) (ver : Nat)
    (k : String) (v1 : Nat) (h : alookup (updateLatest lat eid ver) k = some v1) :
    alookup lat k = some v1 ∨ (k = eid ∧ v1 = ver) := by
  unfold updateLatest at h
  cases h2 : alookup lat eid with
  | none =>
    rw [h2] at h
    rcases alookup_aupsert_elim lat eid k ver v1 h with h3 | h3
    · exact Or.inr h3
    · exact Or.inl h3
  | some w =>
    rw [h2] at h
    have h' : alookup (if w < ver then aupsert lat eid ver else lat) k = some v1 := h
    by_cases hc : w < ver
    · rw [if_pos hc] at h'
      rcases alookup_aupsert_elim lat eid k ver v1 h' with h3 | h3
      · exact Or.inr h3
      · exact Or.inl h3
    · rw [if_neg hc] at h'
      exact Or.inl h'

theorem vfold_lat_mono {α : Type} (fs : List (VKey × α)) :
    ∀ (acc : List ((String × Nat) × α) × List (String × Nat)) (k : String) (v0 : Nat),
      alookup acc.2 k = some v0 →
      ∃ v1, alookup (fs.foldl vStep acc).2 k = some v1 ∧ v0 ≤ v1 := by
  induction fs with
  | nil => exact fun acc k v0 h => ⟨v0, h, le_refl _⟩
  | cons f rest ih =>
    intro acc k v0 h
    obtain ⟨w, hw, hv0w⟩ := updateLatest_mono acc.2 f.1.2.1 f.1.2.2 k v0 h
    obtain ⟨v1, hv1, hwv1⟩ := ih (vStep acc f) k w hw
    exact ⟨v1, hv1, by omega⟩

theorem vfold_lat_bound {α : Type} (fs : List (VKey × α)) :
    ∀ (acc : List ((String × Nat) × α) × List (String × Nat)) (fyv : VKey) (x : α),
      (fyv, x) ∈ fs →
      ∃ v1, alookup (fs.foldl vStep acc).2 fyv.2.1 = some v1 ∧ fyv.2.2 ≤ v1 := by
  induction fs with
  | nil => intro acc fyv x h; exact absurd h (List.not_mem_nil _)
  | cons f rest ih =>
    intro acc fyv x h
    rcases List.mem_cons.mp h with h1 | h1
    · have hf : f = ((fyv, x) : VKey × α) := h1.symm
      subst hf
      obtain ⟨w, hw, hge⟩ := updateLatest_self_ge acc.2 fyv.2.1 fyv.2.2
      obtain ⟨v1, hv1, hwv1⟩ := vfold_lat_mono rest (vStep acc (fyv, x)) fyv.2.1 w hw
      exact ⟨v1, hv1, by omega⟩
    · exact ih (vStep acc f) fyv x h1

theorem vfold_lat_elim {α : Type} (fs : List (VKey × α)) :
    ∀ (acc : List ((String × Nat) × α) × List (String × Nat)) (k : String) (v : Nat),
      alookup (fs.foldl vStep acc).2 k = some v →
      alookup acc.2 k = some v ∨ ∃ fy x, ((fy, k, v), x) ∈ fs := by
  induction fs with
  | nil => intro acc k v h; exact Or.inl h
  | cons f rest ih =>
    intro acc k v h
    rcases ih (vStep acc f) k v h with h1 | h1
    · rcases updateLatest_elim acc.2 f.1.2.1 f.1.2.2 k v h1 with h2 | h2
      · exact Or.inl h2
      · refine Or.inr ⟨f.1.1, f.2, ?_⟩
        have hkey : ((f.1.1, k, v) : VKey) = f.1 := by
          rw [h2.1, h2.2]
        rw [hkey]
        exact List.mem_cons_self _ _
    · obtain ⟨fy, x, hmem⟩ := h1
      exact Or.inr ⟨fy, x, List.mem_cons_of_mem _ hmem⟩

theorem vfold_map_some {α : Type} (fs : List (VKey × α)) :
    ∀ (acc : List ((String × Nat) × α) × List (String × Nat)) (eid : String)
      (v : Nat) (x : α),
      ((∃ fy, ((fy, eid, v), x) ∈ fs) ∨ alookup acc.1 (eid, v) = some x) →
      (∀ fy2 x2, ((fy2, eid, v), x2) ∈ fs → x2 = x) →
      alookup (fs.foldl vStep acc).1 (eid, v) = some x := by
  induction fs with
  | nil =>
    intro acc eid v x hmem huniq
    rcases hmem with ⟨fy, hfy⟩ | h
    · exact absurd hfy (List.not_mem_nil _)
    · exact h
  | cons f rest ih =>
    intro acc eid v x hmem huniq
    by_cases hk : (f.1.2.1, f.1.2.2) = ((eid, v) : String × Nat)
    · have hx : f.2 = x := by
        apply huniq f.1.1 f.2
        have hkey : ((f.1.1, eid, v) : VKey) = f.1 := by
          rw [show eid = f.1.2.1 from (congrArg Prod.fst hk).symm,
              show v = f.1.2.2 from (congrArg Prod.snd hk).symm]
        rw [hkey]
        exact List.mem_cons_self _ _
      apply ih (vStep acc f) eid v x
      · right
        show alookup (aupsert acc.1 (f.1.2.1, f.1.2.2) f.2) (eid, v) = some x
        rw [hk, hx]
        exact alookup_aupsert_self _ _ _
      · exact fun fy2 x2 hm => huniq fy2 x2 (List.mem_cons_of_mem _ hm)
    · apply ih (vStep acc f) eid v x
      · rcases hmem with ⟨fy, hfy⟩ | h
        · rcases List.mem_cons.mp hfy with h1 | h1
          · exact absurd (show (f.1.2.1, f.1.2.2) = ((eid, v) : String × Nat) by
              rw [← h1]) hk
          · exact Or.inl ⟨fy, h1⟩
        · right
          show alookup (aupsert acc.1 (f.1.2.1, f.1.2.2) f.2) (eid, v) = some x
          rw [alookup_aupsert_ne _ _ _ _ (fun hc => hk hc.symm)]
          exact h
      · exact fun fy2 x2 hm => huniq fy2 x2 (List.mem_cons_of_mem _ hm)

theorem loadVersioned_save_roundtrip {α : Type} (files : List (VKey × α))
    (eid fy2 : String) (x : α) :
    alookup (loadVersioned (aupsert files
        (fy2, eid, next_version (loadVersioned files).2 eid) x)).2 eid
      = some (next_version (loadVersioned files).2 eid) ∧
    alookup (loadVersioned (aupsert files
        (fy2, eid, next_version (loadVersioned files).2 eid) x)).1
        (eid, next_version (loadVersioned files).2 eid) = some x := by
  set vs := next_version (loadVersioned files).2 eid with hvs
  have hA : ∀ fy' x2, ((fy', eid, vs), x2) ∈ files → False := by
    intro fy' x2 hmem
    obtain ⟨v1, hv1, hge⟩ := vfold_lat_bound files ([], []) (fy', eid, vs) x2 hmem
    have hv1' : alookup (loadVersioned files).2 eid = some v1 := hv1
    cases hl : alookup (loadVersioned files).2 eid with
    | none =>
      rw [hl] at hv1'
      exact Option.noConfusion hv1'
    | some v0 =>
      rw [hl] at hv1'
      have hveq : v1 = v0 := (Option.some.inj hv1').symm
      have hvs0 : vs = v0 + 1 := by
        rw [hvs]
        unfold next_version
        rw [hl]
      have hge' : vs ≤ v1 := hge
      omega
  have hnone : alookup files ((fy2, eid, vs) : VKey) = none := by
    cases hlk : alookup files ((fy2, eid, vs) : VKey) with
    | none => rfl
    | some y => exact absurd (alookup_some_mem _ _ _ hlk) (fun hm => hA fy2 y hm)
  have hfiles2 : aupsert files ((fy2, eid, vs) : VKey) x
      = files ++ [((fy2, eid, vs), x)] :=
    aupsert_of_lookup_none _ _ _ hnone
  have hmemours : (((fy2, eid, vs) : VKey), x) ∈ aupsert files (fy2, eid, vs) x := by
    rw [hfiles2]
    exact List.mem_append_right _ (List.mem_cons_self _ _)
  have huniq : ∀ fy' x2,
      ((fy', eid, vs), x2) ∈ aupsert files (fy2, eid, vs) x → x2 = x := by
    intro fy' x2 hm
    rw [hfiles2] at hm
    rcases List.mem_append.mp hm with hm1 | hm1
    · exact absurd hm1 (fun hh => hA fy' x2 hh)
    · exact congrArg Prod.snd (List.mem_singleton.mp hm1)
  constructor
  · obtain ⟨v1, hv1, hge⟩ := vfold_lat_bound (aupsert files (fy2, eid, vs) x)
      ([], []) (fy2, eid, vs) x hmemours
    have hv1' : alookup (loadVersioned (aupsert files (fy2, eid, vs) x)).2 eid
        = some v1 := hv1
    rcases vfold_lat_elim (aupsert files (fy2, eid, vs) x) ([], []) eid v1 hv1
      with h2 | h2
    · exact absurd h2 (by simp [alookup])
    · obtain ⟨fy3, x3, hmem3⟩ := h2
      rw [hfiles2] at hmem3
      rcases List.mem_append.mp hmem3 with hm | hm
      · exfalso
        obtain ⟨vb, hvb, hbge⟩ := vfold_lat_bound files ([], []) (fy3, eid, v1) x3 hm
        have hvb' : alookup (loadVersioned files).2 eid = some vb := hvb
        cases hl : alookup (loadVersioned files).2 eid with
        | none =>
          rw [hl] at hvb'
          exact Option.noConfusion hvb'
        | some v0 =>
          rw [hl] at hvb'
          have hvbeq : vb = v0 := (Option.some.inj hvb').symm
          have hvs0 : vs = v0 + 1 := by
            rw [hvs]
            unfold next_version
            rw [hl]
          have hge' : vs ≤ v1 := hge
          have hbge' : v1 ≤ vb := hbge
          omega
      · have hveq : v1 = vs := congrArg (fun p => p.1.2.2) (List.mem_singleton.mp hm)
        rw [hveq] at hv1'
        exact hv1'
  · exact vfold_map_some (aupsert files (fy2, eid, vs) x) ([], []) eid vs x
      (Or.inl ⟨fy2, hmemours⟩) huniq

theorem merge_lookup_pres (ym : List ((String × DDate) × Transaction)) :
    ∀ m k, alookup ym k = none →
      alookup (ym.foldl (fun m2 kv => aupsert m2 kv.1 kv.2) m) k = alookup m k := by
  induction ym with
  | nil => intro m k _; rfl
  | cons kv rest ih =>
    intro m k h
    obtain ⟨k1, v1⟩ := kv
    have h1 : ¬ k1 = k := by
      intro hc
      rw [show alookup ((k1, v1) :: rest) k
          = (if k1 = k then some v1 else alookup rest k) from rfl, if_pos hc] at h
      exact Option.noConfusion h
    have hrest : alookup rest k = none := by
      rw [show alookup ((k1, v1) :: rest) k
          = (if k1 = k then some v1 else alookup rest k) from rfl, if_neg h1] at h
      exact h
    show alookup (rest.foldl (fun m2 kv => aupsert m2 kv.1 kv.2) (aupsert m k1 v1)) k
      = alookup m k
    rw [ih (aupsert m k1 v1) k hrest]
    exact alookup_aupsert_ne m k1 k v1 (fun hc => h1 hc.symm)

theorem merge_lookup_set (ym : List ((String × DDate) × Transaction)) :
    ∀ m k t, (ym.map Prod.fst).Nodup → alookup ym k = some t →
      alookup (ym.foldl (fun m2 kv => aupsert m2 kv.1 kv.2) m) k = some t := by
  induction ym with
  | nil => intro m k t _ h; exact absurd h (by simp [alookup])
  | cons kv rest ih =>
    intro m k t hnd h
    obtain ⟨k1, v1⟩ := kv
    simp only [List.map_cons, List.nodup_cons] at hnd
    by_cases h1 : k1 = k
    · have ht : v1 = t := by
        rw [show alookup ((k1, v1) :: rest) k
            = (if k1 = k then some v1 else alookup rest k) from rfl, if_pos h1] at h
        exact Option.some.inj h
      have hrest : alookup rest k = none := by
        rw [alookup_eq_none_iff]
        intro p hp hpk
        exact hnd.1 (List.mem_map.mpr ⟨p, hp, by rw [hpk]; exact h1.symm⟩)
      show alookup
        (rest.foldl (fun m2 kv => aupsert m2 kv.1 kv.2) (aupsert m k1 v1)) k = some t
      rw [merge_lookup_pres rest (aupsert m k1 v1) k hrest]
      subst h1
      rw [← ht]
      exact alookup_aupsert_self _ _ _
    · have hrest : alookup rest k = some t := by
        rw [show alookup ((k1, v1) :: rest) k
            = (if k1 = k then some v1 else alookup rest k) from rfl, if_neg h1] at h
        exact h
      exact ih (aupsert m k1 v1) k t hnd.2 hrest

theorem load_txn_none_elim (files : List (String × List Transaction)) :
    ∀ acc k, alookup ((files.foldl txnStep acc).1) k = none →
      alookup acc.1 k = none ∧
      ∀ p ∈ files, alookup (load_txn_year p.2) k = none := by
  induction files with
  | nil => intro acc k h; exact ⟨h, by simp⟩
  | cons f rest ih =>
    intro acc k h
    obtain ⟨hacc', hrest⟩ := ih (txnStep acc f) k h
    have hacc2 : alookup
        ((load_txn_year f.2).foldl (fun m2 kv => aupsert m2 kv.1 kv.2) acc.1) k
        = none := hacc'
    have hymnone : alookup (load_txn_year f.2) k = none := by
      cases hy : alookup (load_txn_year f.2) k with
      | none => rfl
      | some t2 =>
        have hset := merge_lookup_set (load_txn_year f.2) acc.1 k t2
          (keyFold_keys_nodup txnKey f.2 [] (by simp)) hy
        rw [hacc2] at hset
        exact Option.noConfusion hset
    have haccnone : alookup acc.1 k = none := by
      rw [merge_lookup_pres (load_txn_year f.2) acc.1 k hymnone] at hacc2
      exact hacc2
    refine ⟨haccnone, ?_⟩
    intro p hp
    rcases List.mem_cons.mp hp with h1 | h1
    · rw [h1]; exact hymnone
    · exact hrest p h1

theorem txnfold_lookup (files : List (String × List Transaction)) :
    ∀ acc (k : String × DDate) (t : Transaction),
      (∀ p ∈ files, alookup (load_txn_year p.2) k = none ∨
         alookup (load_txn_year p.2) k = some t) →
      (alookup acc.1 k = some t ∨
         ∃ p ∈ files, alookup (load_txn_year p.2) k = some t) →
      alookup ((files.foldl txnStep acc).1) k = some t := by
  induction files with
  | nil =>
    intro acc k t _ hsome
    rcases hsome with h | ⟨p, hp, _⟩
    · exact h
    · exact absurd hp (List.not_mem_nil p)
  | cons f rest ih =>
    intro acc k t hall hsome
    apply ih (txnStep acc f) k t
    · exact fun p hp => hall p (List.mem_cons_of_mem _ hp)
    · rcases hall f (List.mem_cons_self _ _) with hf | hf
      · rcases hsome with h | ⟨p, hp, hps⟩
        · left
          show alookup
            ((load_txn_year f.2).foldl (fun m2 kv => aupsert m2 kv.1 kv.2) acc.1) k
            = some t
          rw [merge_lookup_pres _ _ _ hf]
          exact h
        · rcases List.mem_cons.mp hp with h1 | h1
          · exfalso
            rw [h1, hf] at hps
            exact Option.noConfusion hps
          · exact Or.inr ⟨p, h1, hps⟩
      · left
        show alookup
          ((load_txn_year f.2).foldl (fun m2 kv => aupsert m2 kv.1 kv.2) acc.1) k
          = some t
        exact merge_lookup_set (load_txn_year f.2) acc.1 k t
          (keyFold_keys_nodup txnKey f.2 [] (by simp)) hf

theorem txnfold_outfiles (files : List (String × List Transaction)) :
    ∀ acc p, p ∈ (files.foldl txnStep acc).2 →
      p ∈ acc.2 ∨ ∃ lines0, (p.1, lines0) ∈ files ∧ ∀ t2 ∈ p.2, t2 ∈ lines0 := by
  induction files with
  | nil => intro acc p hp; exact Or.inl hp
  | cons f rest ih =>
    intro acc p hp
    rcases ih (txnStep acc f) p hp with h1 | h1
    · have h1' : p ∈ acc.2 ++ (if (load_txn_year f.2).isEmpty then []
          else [(f.1, (load_txn_year f.2).map Prod.snd)]) := h1
      rcases List.mem_append.mp h1' with h2 | h2
      · exact Or.inl h2
      · by_cases hy : (load_txn_year f.2).isEmpty
        · rw [if_pos hy] at h2
          exact absurd h2 (List.not_mem_nil p)
        · rw [if_neg hy] at h2
          have hpe := List.mem_singleton.mp h2
          refine Or.inr ⟨f.2, ?_, ?_⟩
          · rw [hpe]
            exact List.mem_cons_self _ _
          · intro t2 ht2
            rw [hpe] at ht2
            obtain ⟨p2, hp2, hp2t⟩ := List.mem_map.mp ht2
            rcases keyFold_mem_elim txnKey f.2 [] p2 hp2 with hc | hc
            · exact absurd hc (List.not_mem_nil p2)
            · rw [← hp2t]
              exact hc
    · obtain ⟨l0, hl0, hsub⟩ := h1
      exact Or.inr ⟨l0, List.mem_cons_of_mem _ hl0, hsub⟩

/-- C2: for each of the five entity kinds, saving a value through a freshly
loaded registry, reloading from disk, and reading the value back by its key
yields the saved value. For clients the key is the (case-folded) client_id;
for quotes, invoices and jobs it is the id at the latest version; for
transactions it is (transaction_id, date). The transaction save requires its
key to be fresh, since save_transaction is create-once. -/
theorem c2_save_reload_roundtrip (d : Disk) (c : Client) (q : Quote)
    (i : Invoice) (j : Job) (t : Transaction)
    (hfresh : get_transaction (loadAll d).1 t.transaction_id t.date = none) :
    get_client (loadAll (save_client (loadAll d).1 (loadAll d).2 c).2).1
      c.client_id = some c ∧
    get_quote (loadAll (save_quote (loadAll d).1 (loadAll d).2 q).2).1
      q.quote_id q.date_created none = some q ∧
    get_invoice (loadAll (save_invoice (loadAll d).1 (loadAll d).2 i).2).1
      i.invoice_id i.date_created none = some i ∧
    get_job (loadAll (save_job (loadAll d).1 (loadAll d).2 j).2).1
      j.job_id j.date_accepted none = some j ∧
    (save_transaction (loadAll d).1 (loadAll d).2 t).1 = none ∧
    get_transaction
      (loadAll (save_transaction (loadAll d).1 (loadAll d).2 t).2.2).1
      t.transaction_id t.date = some t := by
  have hf2 : alookup (loadAll d).1.transactions (txnKey t) = none := hfresh
  refine ⟨?_, ?_, ?_, ?_, ?_, ?_⟩
  · exact keyFold_append_last clientKey []
      (compact_clients (load_clients d.clientsFile)) c
  · obtain ⟨hlat, hmap⟩ := loadVersioned_save_roundtrip d.quoteFiles q.quote_id
      (get_financial_year q.date_created) q
    show (match alookup
        (loadAll (save_quote (loadAll d).1 (loadAll d).2 q).2).1.latest_quotes
        q.quote_id with
      | none => none
      | some v => alookup
          (loadAll (save_quote (loadAll d).1 (loadAll d).2 q).2).1.quotes
          (q.quote_id, v)) = some q
    rw [show alookup
        (loadAll (save_quote (loadAll d).1 (loadAll d).2 q).2).1.latest_quotes
        q.quote_id
        = some (next_version (loadVersioned d.quoteFiles).2 q.quote_id) from hlat]
    exact hmap
  · obtain ⟨hlat, hmap⟩ := loadVersioned_save_roundtrip d.invoiceFiles i.invoice_id
      (get_financial_year (i.date_issued.getD i.date_created)) i
    show (match alookup
        (loadAll (save_invoice (loadAll d).1 (loadAll d).2 i).2).1.latest_invoices
        i.invoice_id with
      | none => none
      | some v => alookup
          (loadAll (save_invoice (loadAll d).1 (loadAll d).2 i).2).1.invoices
          (i.invoice_id, v)) = some i
    rw [show alookup
        (loadAll (save_invoice (loadAll d).1 (loadAll d).2 i).2).1.latest_invoices
        i.invoice_id
        = some (next_version (loadVersioned d.invoiceFiles).2 i.invoice_id) from hlat]
    exact hmap
  · obtain ⟨hlat, hmap⟩ := loadVersioned_save_roundtrip d.jobFiles j.job_id
      (get_financial_year j.date_accepted) j
    show (match alookup
        (loadAll (save_job (loadAll d).1 (loadAll d).2 j).2).1.latest_jobs
        j.job_id with
      | none => none
      | some v => alookup
          (loadAll (save_job (loadAll d).1 (loadAll d).2 j).2).1.jobs
          (j.job_id, v)) = some j
    rw [show alookup
        (loadAll (save_job (loadAll d).1 (loadAll d).2 j).2).1.latest_jobs
        j.job_id
        = some (next_version (loadVersioned d.jobFiles).2 j.job_id) from hlat]
    exact hmap
  · unfold save_transaction
    rw [hf2]
  · have hsv : (save_transaction (loadAll d).1 (loadAll d).2 t).2.2
        = appendTxnLine (loadAll d).2 t := by
      unfold save_transaction
      rw [hf2]
    rw [hsv]
    have hfiles := (load_txn_none_elim d.txnFiles ([], []) (txnKey t) hf2).2
    have hfresh1 : ∀ p ∈ (loadAll d).2.txnFiles,
        alookup (load_txn_year p.2) (txnKey t) = none := by
      intro p hp
      have hp' : p ∈ (d.txnFiles.foldl txnStep ([], [])).2 := hp
      rcases txnfold_outfiles d.txnFiles ([], []) p hp' with h1 | h1
      · exact absurd h1 (List.not_mem_nil p)
      · obtain ⟨l0, hl0, hsub⟩ := h1
        exact (keyFold_lookup_none_iff txnKey p.2 [] (txnKey t)).mpr
          ⟨fun v hv => ((keyFold_lookup_none_iff txnKey l0 [] (txnKey t)).mp
            (hfiles (p.1, l0) hl0)).1 v (hsub v hv), rfl⟩
    cases hlk : alookup (loadAll d).2.txnFiles (get_financial_year t.date) with
    | some lines =>
      have happ : appendTxnLine (loadAll d).2 t = { (loadAll d).2 with txnFiles := aupsert (loadAll d).2.txnFiles (get_financial_year t.date) (lines ++ [t]) } := by
        show (match alookup (loadAll d).2.txnFiles (get_financial_year t.date) with
          | some lines2 => { (loadAll d).2 with txnFiles := aupsert (loadAll d).2.txnFiles (get_financial_year t.date) (lines2 ++ [t]) }
          | none => { (loadAll d).2 with txnFiles := (loadAll d).2.txnFiles ++ [(get_financial_year t.date, [t])] }) = _
        rw [hlk]
      rw [happ]
      show alookup (((aupsert (loadAll d).2.txnFiles (get_financial_year t.date)
          (lines ++ [t])).foldl txnStep ([], [])).1) (txnKey t) = some t
      refine txnfold_lookup _ ([], []) (txnKey t) t ?_ ?_
      · intro p hp
        rcases mem_aupsert_elim _ _ _ p hp with h1 | h1
        · exact Or.inl (hfresh1 p h1)
        · right
          rw [h1.2]
          exact keyFold_append_last txnKey [] lines t
      · right
        obtain ⟨p, hp, hp1, hp2⟩ := mem_aupsert_self (loadAll d).2.txnFiles
          (get_financial_year t.date) (lines ++ [t])
        exact ⟨p, hp, by rw [hp2]; exact keyFold_append_last txnKey [] lines t⟩
    | none =>
      have happ : appendTxnLine (loadAll d).2 t = { (loadAll d).2 with txnFiles := (loadAll d).2.txnFiles ++ [(get_financial_year t.date, [t])] } := by
        show (match alookup (loadAll d).2.txnFiles (get_financial_year t.date) with
          | some lines2 => { (loadAll d).2 with txnFiles := aupsert (loadAll d).2.txnFiles (get_financial_year t.date) (lines2 ++ [t]) }
          | none => { (loadAll d).2 with txnFiles := (loadAll d).2.txnFiles ++ [(get_financial_year t.date, [t])] }) = _
        rw [hlk]
      rw [happ]
      show alookup ((((loadAll d).2.txnFiles ++
          [(get_financial_year t.date, [t])]).foldl txnStep ([], [])).1)
          (txnKey t) = some t
      refine txnfold_lookup _ ([], []) (txnKey t) t ?_ ?_
      · intro p hp
        rcases List.mem_append.mp hp with h1 | h1
        · exact Or.inl (hfresh1 p h1)
        · right
          rw [List.mem_singleton.mp h1]
          exact keyFold_append_last txnKey [] [] t
      · right
        exact ⟨(get_financial_year t.date, [t]),
          List.mem_append_right _ (List.mem_cons_self _ _),
          keyFold_append_last txnKey [] [] t⟩

/-- C2 (witness): the round trip on an empty data directory with concrete
sample values of all five entity kinds. -/
theorem c2_roundtrip_witness :
    get_transaction (loadAll emptyDisk).1 txn3.transaction_id txn3.date = none ∧
    (get_client
        (loadAll (save_client (loadAll emptyDisk).1 (loadAll emptyDisk).2 clA).2).1
        clA.client_id = some clA ∧
     get_quote
        (loadAll (save_quote (loadAll emptyDisk).1 (loadAll emptyDisk).2 q2).2).1
        q2.quote_id q2.date_created none = some q2 ∧
     get_invoice
        (loadAll (save_invoice (loadAll emptyDisk).1 (loadAll emptyDisk).2 i2).2).1
        i2.invoice_id i2.date_created none = some i2 ∧
     get_job
        (loadAll (save_job (loadAll emptyDisk).1 (loadAll emptyDisk).2 j2).2).1
        j2.job_id j2.date_accepted none = some j2 ∧
     (save_transaction (loadAll emptyDisk).1 (loadAll emptyDisk).2 txn3).1 = none ∧
     get_transaction
        (loadAll
          (save_transaction (loadAll emptyDisk).1 (loadAll emptyDisk).2 txn3).2.2).1
        txn3.transaction_id txn3.date = some txn3) :=
  ⟨by decide, c2_save_reload_roundtrip emptyDisk clA q2 i2 j2 txn3 (by decide)⟩

/-- C8: accept_quote_to_job writes nothing when it raises (unknown quote id
or a latest quote whose derived status is not SENT, the latter raising a
ValueError naming the actual status); on success it saves both a new quote
version with date_accepted = today and a new job linked to the quote. -/
theorem c8_accept_quote_to_job (d : Disk) (qid : String) (sched : Option DDate)
    (today : DDate) (fid : String) :
    ((accept_quote_to_job qid d sched today fid).1.isSome = true →
       (accept_quote_to_job qid d sched today fid).2.1.quoteFiles = d.quoteFiles ∧
       (accept_quote_to_job qid d sched today fid).2.1.jobFiles = d.jobFiles ∧
       (accept_quote_to_job qid d sched today fid).2.2 = none) ∧
    (∀ q3, get_latest_quote_by_id (loadAll d).1 qid = some q3 →
       q3.status today ≠ QuoteStatus.sent →
       (accept_quote_to_job qid d sched today fid).1 =
         some ("Quote " ++ qid ++ " cannot be accepted: status is " ++
               (q3.status today).value ++ " (must be sent)")) ∧
    ((accept_quote_to_job qid d sched today fid).1 = none →
       ∃ q3, get_latest_quote_by_id (loadAll d).1 qid = some q3 ∧
         q3.status today = QuoteStatus.sent ∧
         (∃ jb, (accept_quote_to_job qid d sched today fid).2.2 = some jb ∧
            jb.job_id = fid ∧ jb.client_id = q3.client_id ∧
            jb.quote_id = some q3.quote_id ∧ jb.date_accepted = today ∧
            (∃ ver, alookup
               (accept_quote_to_job qid d sched today fid).2.1.jobFiles
               (get_financial_year today, fid, ver) = some jb)) ∧
         (∃ ver, alookup
            (accept_quote_to_job qid d sched today fid).2.1.quoteFiles
            (get_financial_year q3.date_created, q3.quote_id, ver) =
            some { q3 with date_accepted := some today })) := by
  cases hq : get_latest_quote_by_id (loadAll d).1 qid with
  | none =>
    have hmain : accept_quote_to_job qid d sched today fid =
        (some ("Quote not found: " ++ qid), (loadAll d).2, none) := by
      simp only [accept_quote_to_job, hq]
    refine ⟨fun _ => ⟨by rw [hmain]; rfl, by rw [hmain]; rfl, by rw [hmain]⟩,
      ?_, ?_⟩
    · intro q3 hq3 _
      exact Option.noConfusion hq3
    · intro hnone
      rw [hmain] at hnone
      exact Option.noConfusion hnone
  | some q3 =>
    by_cases hst : q3.status today = QuoteStatus.sent
    · have hmain : accept_quote_to_job qid d sched today fid =
          (none,
           (save_job
             (save_quote (loadAll d).1 (loadAll d).2
               { q3 with date_accepted := some today }).1
             (save_quote (loadAll d).1 (loadAll d).2
               { q3 with date_accepted := some today }).2
             { job_id := fid, client_id := q3.client_id,
               quote_id := some q3.quote_id, date_accepted := today,
               scheduled_date := sched }).2,
           some { job_id := fid, client_id := q3.client_id,
                  quote_id := some q3.quote_id, date_accepted := today,
                  scheduled_date := sched }) := by
        simp only [accept_quote_to_job, hq]
        rw [if_pos hst]
      refine ⟨?_, ?_, ?_⟩
      · intro hs
        rw [hmain] at hs
        exact absurd hs (by simp)
      · intro q4 hq4 hst4
        rw [← Option.some.inj hq4] at hst4
        exact absurd hst hst4
      · intro _
        refine ⟨q3, rfl, hst,
          ⟨{ job_id := fid, client_id := q3.client_id,
             quote_id := some q3.quote_id, date_accepted := today,
             scheduled_date := sched },
           by rw [hmain], rfl, rfl, rfl, rfl, ?_⟩, ?_⟩
        · refine ⟨next_version
            (save_quote (loadAll d).1 (loadAll d).2
              { q3 with date_accepted := some today }).1.latest_jobs fid, ?_⟩
          rw [hmain]
          exact alookup_aupsert_self _ _ _
        · refine ⟨next_version (loadAll d).1.latest_quotes q3.quote_id, ?_⟩
          rw [hmain]
          exact alookup_aupsert_self _ _ _
    · have hmain : accept_quote_to_job qid d sched today fid =
          (some ("Quote " ++ qid ++ " cannot be accepted: status is " ++
                 (q3.status today).value ++ " (must be sent)"),
           (loadAll d).2, none) := by
        simp only [accept_quote_to_job, hq]
        rw [if_neg hst]
      refine ⟨fun _ => ⟨by rw [hmain]; rfl, by rw [hmain]; rfl, by rw [hmain]⟩,
        ?_, ?_⟩
      · intro q4 hq4 _
        rw [← Option.some.inj hq4, hmain]
      · intro hnone
        rw [hmain] at hnone
        exact Option.noConfusion hnone

/-- C8 (witness): accepting the concrete SENT quote q8 from directory d8
succeeds and saves the accepted quote version and the linked job. -/
theorem c8_accept_witness :
    (accept_quote_to_job ("Q-1") d8 none today8 ("J-1")).1 = none ∧
    (∃ q3, get_latest_quote_by_id (loadAll d8).1 ("Q-1") = some q3 ∧
       q3.status today8 = QuoteStatus.sent ∧
       (∃ jb, (accept_quote_to_job ("Q-1") d8 none today8 ("J-1")).2.2 = some jb ∧
          jb.job_id = ("J-1") ∧ jb.client_id = q3.client_id ∧
          jb.quote_id = some q3.quote_id ∧ jb.date_accepted = today8 ∧
          (∃ ver, alookup
             (accept_quote_to_job ("Q-1") d8 none today8 ("J-1")).2.1.jobFiles
             (get_financial_year today8, ("J-1"), ver) = some jb)) ∧
       (∃ ver, alookup
          (accept_quote_to_job ("Q-1") d8 none today8 ("J-1")).2.1.quoteFiles
          (get_financial_year q3.date_created, q3.quote_id, ver) =
          some { q3 with date_accepted := some today8 })) :=
  ⟨by decide,
   (c8_accept_quote_to_job d8 ("Q-1") none today8 ("J-1")).2.2 (by decide)⟩

end SB
